import Mathlib

/-!
# Verification of the Kds data-cleaning pipeline (`src/dataProcess.py`)

Shallow embedding of the pandas pipeline in `dataProcess.py`.  A dataframe is
a list of column names together with a list of rows; each row is a list of
cell values aligned with the column list.  A cell value is a string, an
integer, a float, or missing (pandas `NaN`).

Floats are modelled as exact fractions (`Frac`, an integer numerator over a
natural denominator): every float value the pipeline produces or that the
claims mention is exactly representable, and comparisons/arithmetic on
`Frac` are plain integer computations, so concrete runs of the pipeline
evaluate inside the kernel.  The lemmas `Frac.le_iff`, `Frac.div_val` …
relate every `Frac` operation to the corresponding operation on `ℚ`.

Elementwise semantics of the pandas operations used by the source are
modelled faithfully: numeric parses that fail yield missing
(`pd.to_numeric(errors='coerce')`), `astype(int)` truncates toward zero and
raises on non-numeric strings, Python comparisons between strings and
numbers raise `TypeError`, comparisons against `NaN` are false, `NaN` is
truthy, `drop_duplicates` compares by value with `NaN` equal to `NaN`, and
`Series.is_monotonic_increasing` is false on data containing `NaN`.
Fallible operations return `Except String`.  The textual form that
`astype(str)` gives to floats is abstracted by `floatRepr` (no claim
depends on it).
-/

deriving instance DecidableEq for Except

namespace Kds

/-! ### Exact fractions -/

/-- A float value: `num / den` with `den` expected positive.  The pipeline
only ever constructs positive denominators; `dpos` reads an (unreachable)
zero denominator as `1` so that every operation is total. -/
structure Frac where
  num : Int
  den : Nat
deriving DecidableEq, Repr

/-- Truncation toward zero on `ℚ`, the semantics of Python `int(float)` and
numpy `astype(int)`. -/
def truncQ (q : ℚ) : Int := if 0 ≤ q then ⌊q⌋ else ⌈q⌉

namespace Frac

/-- The denominator, protected against the ill-formed value `0`. -/
def dpos (f : Frac) : Nat := max f.den 1

/-- The rational value of a fraction. -/
def val (f : Frac) : ℚ := f.num / (dpos f : ℚ)

def ofInt (n : Int) : Frac := ⟨n, 1⟩

/-- `≤` by cross multiplication. -/
def le (f g : Frac) : Bool := decide (f.num * (g.dpos : Int) ≤ g.num * (f.dpos : Int))

/-- `<` by cross multiplication. -/
def lt (f g : Frac) : Bool := decide (f.num * (g.dpos : Int) < g.num * (f.dpos : Int))

/-- `=` by cross multiplication. -/
def eq (f g : Frac) : Bool := decide (f.num * (g.dpos : Int) = g.num * (f.dpos : Int))

/-- True division, keeping the denominator positive (the caller guards
against a zero divisor). -/
def div (a b : Frac) : Frac :=
  if b.num < 0 then ⟨-(a.num * (b.dpos : Int)), a.dpos * b.num.natAbs⟩
  else ⟨a.num * (b.dpos : Int), a.dpos * b.num.natAbs⟩

/-- `1 - f`, as in the `hint_independence` formula. -/
def oneMinus (f : Frac) : Frac := ⟨(f.dpos : Int) - f.num, f.dpos⟩

/-- Truncation toward zero, as Python `int(float)` / numpy `astype(int)`. -/
def trunc (f : Frac) : Int :=
  if 0 ≤ f.num then f.num / (f.dpos : Int) else -((-f.num) / (f.dpos : Int))

theorem dpos_ne_zero (f : Frac) : f.dpos ≠ 0 := by
  simp [dpos]

theorem dpos_mk (n : Int) (d : Nat) (hd : d ≠ 0) : (Frac.mk n d).dpos = d :=
  Nat.max_eq_left (Nat.one_le_iff_ne_zero.2 hd)

theorem val_mk (n : Int) (d : Nat) (hd : d ≠ 0) :
    (Frac.mk n d).val = (n : ℚ) / (d : ℚ) := by
  rw [val, dpos_mk n d hd]

theorem dpos_pos (f : Frac) : 0 < (f.dpos : ℚ) := by
  have : 0 < f.dpos := Nat.pos_of_ne_zero f.dpos_ne_zero
  exact_mod_cast this

theorem le_iff (f g : Frac) : f.le g = true ↔ f.val ≤ g.val := by
  rw [Frac.le, decide_eq_true_eq, Frac.val, Frac.val,
    div_le_div_iff (dpos_pos f) (dpos_pos g)]
  constructor
  · intro h; exact_mod_cast h
  · intro h; exact_mod_cast h

theorem lt_iff (f g : Frac) : f.lt g = true ↔ f.val < g.val := by
  rw [Frac.lt, decide_eq_true_eq, Frac.val, Frac.val,
    div_lt_div_iff (dpos_pos f) (dpos_pos g)]
  constructor
  · intro h; exact_mod_cast h
  · intro h; exact_mod_cast h

theorem eq_iff (f g : Frac) : f.eq g = true ↔ f.val = g.val := by
  rw [Frac.eq, decide_eq_true_eq, Frac.val, Frac.val,
    div_eq_div_iff (ne_of_gt (dpos_pos f)) (ne_of_gt (dpos_pos g))]
  constructor
  · intro h; exact_mod_cast h
  · intro h; exact_mod_cast h

theorem ofInt_val (n : Int) : (ofInt n).val = (n : ℚ) := by
  simp [ofInt, val, dpos]

theorem num_eq_zero_iff (f : Frac) : f.num = 0 ↔ f.val = 0 := by
  rw [val, div_eq_zero_iff]
  constructor
  · intro h; left; exact_mod_cast h
  · rintro (h | h)
    · exact_mod_cast h
    · exact absurd h (ne_of_gt (dpos_pos f))

theorem div_val (a b : Frac) (h : b.num ≠ 0) : (a.div b).val = a.val / b.val := by
  have hbq : (b.num : ℚ) ≠ 0 := Int.cast_ne_zero.2 h
  have hda : (a.dpos : ℚ) ≠ 0 := ne_of_gt (dpos_pos a)
  have hdb : (b.dpos : ℚ) ≠ 0 := ne_of_gt (dpos_pos b)
  have hDnat : a.dpos * b.num.natAbs ≠ 0 :=
    Nat.mul_ne_zero a.dpos_ne_zero (Int.natAbs_ne_zero.2 h)
  rcases lt_or_ge b.num 0 with hneg | hpos
  · have habs : (b.num.natAbs : ℚ) = -(b.num : ℚ) := by
      rw [Int.cast_natAbs, abs_of_neg hneg]
      push_cast
      ring
    rw [div, if_pos hneg, val_mk _ _ hDnat, val, val]
    push_cast [habs]
    field_simp
  · have habs : (b.num.natAbs : ℚ) = (b.num : ℚ) := by
      rw [Int.cast_natAbs, abs_of_nonneg hpos]
    rw [div, if_neg (not_lt.2 hpos), val_mk _ _ hDnat, val, val]
    push_cast [habs]
    field_simp

theorem oneMinus_val (f : Frac) : f.oneMinus.val = 1 - f.val := by
  have hd : (f.dpos : ℚ) ≠ 0 := ne_of_gt (dpos_pos f)
  rw [oneMinus, val_mk _ _ f.dpos_ne_zero, val]
  push_cast
  field_simp

theorem trunc_eq (f : Frac) : f.trunc = truncQ f.val := by
  have hdQ : 0 < (f.dpos : ℚ) := dpos_pos f
  rcases le_or_lt 0 f.num with hpos | hneg
  · have hv : 0 ≤ f.val := by
      rw [val]
      exact div_nonneg (by exact_mod_cast hpos) (le_of_lt hdQ)
    rw [trunc, if_pos hpos, truncQ, if_pos hv, val,
      Rat.floor_intCast_div_natCast]
  · have hv : f.val < 0 := by
      rw [val]
      exact div_neg_of_neg_of_pos (by exact_mod_cast hneg) hdQ
    rw [trunc, if_neg (not_le.2 hneg), truncQ, if_neg (not_le.2 hv)]
    have hceil : ⌈f.val⌉ = -⌊-f.val⌋ := by
      simp [Int.floor_neg]
    rw [hceil]
    congr 1
    rw [val, ← neg_div]
    have : (-(f.num : ℚ)) = ((-f.num : ℤ) : ℚ) := by push_cast; ring
    rw [this, Rat.floor_intCast_div_natCast]

end Frac

/-! ### Values, rows and dataframes -/

/-- A cell of the dataframe: string, integer, float, or missing (`NaN`). -/
inductive Value where
  | str (s : String)
  | int (n : Int)
  | float (f : Frac)
  | missing
deriving DecidableEq, Repr

abbrev Row := List Value

/-- A dataframe: named columns and rows of cells, each row aligned with
`cols` (alignment is stated as the predicate `Aligned` where needed). -/
structure DF where
  cols : List String
  rows : List Row
deriving DecidableEq, Repr

/-- Every row has exactly one cell per column (always true of a real
pandas dataframe). -/
def Aligned (d : DF) : Prop := ∀ r ∈ d.rows, r.length = d.cols.length

instance (d : DF) : Decidable (Aligned d) := by
  unfold Aligned
  infer_instance

/-- Cell of a row at a column position. -/
def cell (r : Row) (i : Nat) : Value := r.getD i .missing

/-- Position of a column name (first occurrence, as pandas label lookup). -/
def colIdx (cols : List String) (c : String) : Nat := cols.indexOf c

/-- Cell of a row at a named column of a dataframe. -/
def colv (d : DF) (c : String) (r : Row) : Value := cell r (colIdx d.cols c)

def Value.isMissing : Value → Bool
  | .missing => true
  | _ => false

/-- Numeric view of a value (ints and floats), for the statements of the
claims. -/
def toQ : Value → Option ℚ
  | .int n => some (n : ℚ)
  | .float f => some f.val
  | .str _ => none
  | .missing => none

/-- Numeric view as a fraction (computable side of `toQ`). -/
def toF : Value → Option Frac
  | .int n => some (Frac.ofInt n)
  | .float f => some f
  | .str _ => none
  | .missing => none

/-- Python `==` on cell values: numbers compare numerically across
int/float, strings compare as strings, `NaN` equals nothing, strings never
equal numbers. -/
def valueEq : Value → Value → Bool
  | .str s, .str t => s = t
  | .int a, .int b => a = b
  | .int a, .float g => (Frac.ofInt a).eq g
  | .float f, .int b => f.eq (Frac.ofInt b)
  | .float f, .float g => f.eq g
  | _, _ => false

/-- The row equality used by `drop_duplicates`: values compare by `==`,
except that `NaN` counts as equal to `NaN` (pandas `duplicated`
semantics). -/
def cellDupEq (a b : Value) : Bool :=
  (a.isMissing && b.isMissing) || valueEq a b

def rowDupEq : Row → Row → Bool
  | [], [] => true
  | a :: as, b :: bs => cellDupEq a b && rowDupEq as bs
  | _, _ => false

/-- Python truthiness: `0`, `0.0` and `""` are falsy; every other value,
including `NaN`, is truthy. -/
def truthy : Value → Bool
  | .int n => n ≠ 0
  | .float f => f.num ≠ 0
  | .str s => s ≠ ""
  | .missing => true

/-! ### Numeric literal parsing (`int(...)` and `pd.to_numeric`) -/

/-- Value of a digit string. -/
def digitsToNat (cs : List Char) : Nat :=
  cs.foldl (fun a c => 10 * a + (c.toNat - 48)) 0

/-- Strip an optional leading sign; `true` means negative. -/
def parseSign : List Char → Bool × List Char
  | '-' :: cs => (true, cs)
  | '+' :: cs => (false, cs)
  | cs => (false, cs)

/-- Python `int(s)`: optional sign followed by a nonempty digit string. -/
def parseIntLit (s : String) : Option Int :=
  let (neg, cs) := parseSign s.toList
  if !cs.isEmpty && cs.all Char.isDigit then
    some (if neg then -(digitsToNat cs : Int) else (digitsToNat cs : Int))
  else none

/-- Decimal literal (optional sign, digits, optional fractional part), the
shapes `pd.to_numeric` accepts beyond plain integers. -/
def parseDecLit (s : String) : Option Frac :=
  let (neg, cs) := parseSign s.toList
  match cs.splitOn '.' with
  | [ds] =>
      if !ds.isEmpty && ds.all Char.isDigit then
        some ⟨if neg then -(digitsToNat ds : Int) else (digitsToNat ds : Int), 1⟩
      else none
  | [ds, fs] =>
      if (!ds.isEmpty || !fs.isEmpty) && ds.all Char.isDigit && fs.all Char.isDigit
      then
        let n : Int := digitsToNat ds * 10 ^ fs.length + digitsToNat fs
        some ⟨if neg then -n else n, 10 ^ fs.length⟩
      else none
  | _ => none

/-- `pd.to_numeric(errors='coerce')` on one cell: numbers pass through,
parseable strings become numbers, anything else becomes missing. -/
def toNumericCoerce : Value → Value
  | .int n => .int n
  | .float f => .float f
  | .missing => .missing
  | .str s =>
      match parseIntLit s with
      | some n => .int n
      | none =>
          match parseDecLit s with
          | some f => .float f
          | none => .missing

/-- `astype(int)` on one cell: ints pass, floats truncate toward zero,
strings must be integer literals (`int(s)`), missing raises. -/
def castIntStrict : Value → Except String Int
  | .int n => .ok n
  | .float f => .ok f.trunc
  | .str s =>
      match parseIntLit s with
      | some n => .ok n
      | none => .error "ValueError: invalid literal for int"
  | .missing => .error "ValueError: cannot convert missing to int"

/-- `fillna(0)` on one cell. -/
def fillna0 (v : Value) : Value := if v.isMissing then .int 0 else v

/-- Textual form of a float under `astype(str)`; the exact decimal
rendering of non-integral floats is abstracted (no claim depends on it). -/
def floatRepr (f : Frac) : String :=
  if f.dpos = 1 then toString f.num ++ ".0"
  else toString f.num ++ "/" ++ toString f.dpos

/-- `astype(str)` on one cell (pandas renders `NaN` as `"nan"`). -/
def pyStr : Value → String
  | .str s => s
  | .int n => toString n
  | .float f => floatRepr f
  | .missing => "nan"

/-- Python `>` on two cells, as used by the elementwise comparison
`df['hint_count'] > df['hint_total']`: numbers compare numerically,
comparisons involving `NaN` are false, strings compare lexicographically,
and a string compared with a number (or `NaN`) raises `TypeError`. -/
def pyGt : Value → Value → Except String Bool
  | .int a, .int b => .ok (decide (b < a))
  | .int a, .float g => .ok (g.lt (Frac.ofInt a))
  | .float f, .int b => .ok ((Frac.ofInt b).lt f)
  | .float f, .float g => .ok (g.lt f)
  | .str a, .str b => .ok (decide (b.toList < a.toList))
  | .str _, _ => .error "TypeError"
  | _, .str _ => .error "TypeError"
  | .missing, _ => .ok false
  | _, .missing => .ok false

/-- Python `/` on two cells: true division yields a float, division by a
numeric zero raises, `NaN` operands propagate, strings raise `TypeError`. -/
def pyDiv (a b : Value) : Except String Value :=
  match a, b with
  | .str _, _ => .error "TypeError"
  | _, .str _ => .error "TypeError"
  | a, b =>
      match toF b with
      | some fb =>
          if fb.num = 0 then .error "ZeroDivisionError"
          else
            match toF a with
            | some fa => .ok (.float (fa.div fb))
            | none => .ok .missing
      | none => .ok .missing

/-- `isin([0, 1])` on one cell. -/
def isin01 (v : Value) : Bool := valueEq v (.int 0) || valueEq v (.int 1)

/-! ### Generic list helpers -/

/-- Worker for `dedupBy`: `seen` holds the representatives kept so far. -/
def dedupByGo (eq : α → α → Bool) (seen : List α) : List α → List α
  | [] => []
  | a :: l =>
      if seen.any (fun s => eq s a) then dedupByGo eq seen l
      else a :: dedupByGo eq (a :: seen) l

/-- Keep-first deduplication with a custom equality, as pandas
`drop_duplicates` / the key set of `groupby`. -/
def dedupBy (eq : α → α → Bool) (l : List α) : List α := dedupByGo eq [] l

/-- Effectful map over a list in the `Except` monad (per-row transforms of
fallible pandas column operations). -/
def mapE (f : α → Except String β) : List α → Except String (List β)
  | [] => .ok []
  | a :: l => do
      let b ← f a
      let l' ← mapE f l
      pure (b :: l')

/-! ### Column assignment (`df[c] = ...`) -/

/-- `df[c] = f(row)`: overwrite the column in place when it exists,
otherwise append it on the right (pandas column-assignment semantics). -/
def setCol (d : DF) (c : String) (f : Row → Value) : DF :=
  if c ∈ d.cols then
    ⟨d.cols, d.rows.map (fun r => r.set (colIdx d.cols c) (f r))⟩
  else
    ⟨d.cols ++ [c], d.rows.map (fun r => r ++ [f r])⟩

/-- Fallible version of `setCol`. -/
def setColE (d : DF) (c : String) (f : Row → Except String Value) :
    Except String DF :=
  if c ∈ d.cols then do
    let rows ← mapE (fun r => do
      let v ← f r
      pure (r.set (colIdx d.cols c) v)) d.rows
    pure ⟨d.cols, rows⟩
  else do
    let rows ← mapE (fun r => do
      let v ← f r
      pure (r ++ [v])) d.rows
    pure ⟨d.cols ++ [c], rows⟩

/-! ### Stage 2: `remove_duplicates` -/

/-- `df.drop_duplicates()`: exact row equality by value, keep the first
occurrence, preserve order. -/
def remove_duplicates (d : DF) : DF :=
  ⟨d.cols, dedupBy rowDupEq d.rows⟩

/-! ### Stage 3: `remove_missing_values` -/

/-- The `critical_columns` list of `process_data`. -/
def critical_columns : List String :=
  ["user_id", "problem_id", "template_id", "skill_id", "skill_name",
   "teacher_id", "student_class_id", "school_id", "hint_count", "hint_total"]

/-- `dropna(subset=critical)` (KeyError when a subset column is absent)
followed by `df['correct'] = df['correct'].fillna(0).astype(int)` when a
`correct` column exists. -/
def remove_missing_values (d : DF) (critical : List String) :
    Except String DF :=
  if critical.all (fun c => d.cols.contains c) then
    let kept : List Row :=
      d.rows.filter (fun r =>
        critical.all (fun c => !(cell r (colIdx d.cols c)).isMissing))
    let d1 : DF := ⟨d.cols, kept⟩
    if "correct" ∈ d1.cols then
      setColE d1 "correct" (fun r => do
        let n ← castIntStrict (fillna0 (cell r (colIdx d1.cols "correct")))
        pure (.int n))
    else .ok d1
  else .error "KeyError"

/-! ### Stage 4: `fix_logic_errors` -/

/-- `fix_logic_errors`: clamp `hint_count` down to `hint_total` on rows
where `hint_count > hint_total`, then coerce out-of-domain `correct`
values by Python truthiness (`1 if x else 0`). -/
def fix_logic_errors (d : DF) : Except String DF :=
  if "hint_count" ∈ d.cols ∧ "hint_total" ∈ d.cols then do
    let ihc := colIdx d.cols "hint_count"
    let iht := colIdx d.cols "hint_total"
    let rows1 ← mapE (fun r => do
      let g ← pyGt (cell r ihc) (cell r iht)
      pure (if g then r.set ihc (cell r iht) else r)) d.rows
    if "correct" ∈ d.cols then
      let ic := colIdx d.cols "correct"
      pure ⟨d.cols, rows1.map (fun r =>
        if isin01 (cell r ic) then r
        else r.set ic (.int (if truthy (cell r ic) then 1 else 0)))⟩
    else
      pure ⟨d.cols, rows1⟩
  else .error "KeyError"

/-! ### Stage 5: `normalize_response_time` -/

/-- Clamp a (numeric) cell from above by the integer `m`, as the masked
assignment `df.loc[col > m, col] = m`. -/
def clampHi (v : Value) (m : Int) : Value :=
  match v with
  | .int n => if m < n then .int m else .int n
  | .float f => if (Frac.ofInt m).lt f then .int m else .float f
  | v => v

/-- `normalize_response_time`: coerce `ms_first_response` to numeric with
parse-failure/missing → 0, then clamp values exceeding `max_seconds`.
No-op when the column is absent. -/
def normalize_response_time (d : DF) (max_seconds : Int := 3600) : DF :=
  if "ms_first_response" ∈ d.cols then
    let i := colIdx d.cols "ms_first_response"
    ⟨d.cols, d.rows.map (fun r =>
      r.set i (clampHi (fillna0 (toNumericCoerce (cell r i))) max_seconds))⟩
  else d

/-! ### Stage 6: `add_hint_independence` -/

/-- One cell of `1 - hint_count / hint_total.replace(0, 1)`. -/
def hintIndepVal (hc ht : Value) : Except String Value := do
  let v ← pyDiv hc (if valueEq ht (.int 0) then .int 1 else ht)
  pure (match v with
        | .float f => .float f.oneMinus
        | v => v)

/-- `add_hint_independence` (KeyError when the hint columns are absent). -/
def add_hint_independence (d : DF) : Except String DF :=
  if "hint_count" ∈ d.cols ∧ "hint_total" ∈ d.cols then
    let ihc := colIdx d.cols "hint_count"
    let iht := colIdx d.cols "hint_total"
    setColE d "hint_independence" (fun r =>
      hintIndepVal (cell r ihc) (cell r iht))
  else .error "KeyError"

/-! ### Stage 7: `convert_data_types` -/

def str_cols : List String :=
  ["user_id", "problem_id", "template_id", "skill_id", "skill_name",
   "teacher_id", "student_class_id", "school_id"]

def int_cols : List String :=
  ["attempt_count", "ms_first_response", "hint_count", "hint_total", "correct"]

/-- `to_numeric(errors='coerce').fillna(0).astype(int)` on one cell. -/
def toIntCoerce (v : Value) : Int :=
  match fillna0 (toNumericCoerce v) with
  | .int n => n
  | .float f => f.trunc
  | _ => 0

/-- The eight `astype(str)` assignments of `convert_data_types`, applied to
one row.  The columns are pairwise distinct, so the sequential column
assignments of the source act independently on each row. -/
def strCast (cols : List String) (r : Row) : Row :=
  str_cols.foldl (fun q c =>
    q.set (colIdx cols c) (.str (pyStr (cell q (colIdx cols c))))) r

/-- The five guarded integer coercions of `convert_data_types`, applied to
one row. -/
def intCast (cols : List String) (r : Row) : Row :=
  (int_cols.filter (fun c => cols.contains c)).foldl (fun q c =>
    q.set (colIdx cols c) (.int (toIntCoerce (cell q (colIdx cols c))))) r

/-- `convert_data_types`: cast the eight identifier columns to string
(KeyError when one is absent) and the five count/flag columns, where
present, to integers with the coerce-fillna(0) fallback. -/
def convert_data_types (d : DF) : Except String DF :=
  if str_cols.all (fun c => d.cols.contains c) then
    .ok ⟨d.cols, d.rows.map (fun r => intCast d.cols (strCast d.cols r))⟩
  else .error "KeyError"

/-! ### Stage 8: `check_sequential_order` -/

/-- Rank of a value in the sort order: numbers, then strings, then `NaN`
last.  Within the pipeline the sort columns are homogeneous (strings /
ints after type coercion), where this total order agrees with pandas
`sort_values`. -/
def vRank : Value → ℕ
  | .int _ => 0
  | .float _ => 0
  | .str _ => 1
  | .missing => 2

/-- Numeric component of the sort key. -/
def vQ : Value → ℚ
  | .int n => (n : ℚ)
  | .float f => f.val
  | _ => 0

/-- String component of the sort key. -/
def vS : Value → List Char
  | .str s => s.toList
  | _ => []

/-- Sort key of one cell under `sort_values`. -/
def vKey (v : Value) : ℕ ×ₗ ℚ ×ₗ List Char :=
  toLex (vRank v, toLex (vQ v, vS v))

/-- Computable `vKey a ≤ vKey b` (see `vleB_iff`). -/
def vleB : Value → Value → Bool
  | .int m, .int n => decide (m ≤ n)
  | .int m, .float g => (Frac.ofInt m).le g
  | .float f, .int n => f.le (Frac.ofInt n)
  | .float f, .float g => f.le g
  | .str s, .str t => decide (s.toList ≤ t.toList)
  | a, b => decide (vRank a ≤ vRank b)

/-- Sort key of a row for
`sort_values(['user_id', 'problem_id', 'ms_first_response'])`. -/
def rowKey (iu ip im : Nat) (r : Row) :
    (ℕ ×ₗ ℚ ×ₗ List Char) ×ₗ (ℕ ×ₗ ℚ ×ₗ List Char) ×ₗ (ℕ ×ₗ ℚ ×ₗ List Char) :=
  toLex (vKey (cell r iu), toLex (vKey (cell r ip), vKey (cell r im)))

/-- Computable `rowKey r1 ≤ rowKey r2` (see `rowLeB_iff`): strict at the
first differing key component. -/
def rowLeB (iu ip im : Nat) (r1 r2 : Row) : Bool :=
  if !vleB (cell r1 iu) (cell r2 iu) then false
  else if !vleB (cell r2 iu) (cell r1 iu) then true
  else if !vleB (cell r1 ip) (cell r2 ip) then false
  else if !vleB (cell r2 ip) (cell r1 ip) then true
  else vleB (cell r1 im) (cell r2 im)

/-- Row order used by the validator's sort. -/
def rowLe (iu ip im : Nat) (r1 r2 : Row) : Prop :=
  rowLeB iu ip im r1 r2 = true

instance (iu ip im : Nat) : DecidableRel (rowLe iu ip im) := fun r1 r2 =>
  inferInstanceAs (Decidable (_ = true))

/-- `groupby` key of a row. -/
def keyOf (iu ip : Nat) (r : Row) : Value × Value := (cell r iu, cell r ip)

def keyEqB (k1 k2 : Value × Value) : Bool :=
  valueEq k1.1 k2.1 && valueEq k1.2 k2.2

/-- Adjacent values are non-decreasing in the sort order. -/
def chainLeB : List Value → Bool
  | [] => true
  | [_] => true
  | a :: b :: l => vleB a b && chainLeB (b :: l)

/-- `Series.is_monotonic_increasing`: false when the data contains `NaN`,
otherwise adjacent values must be non-decreasing. -/
def monoInc (l : List Value) : Bool :=
  l.all (fun v => !v.isMissing) && chainLeB l

/-- The diagnostic count of `check_sequential_order`: the number of
`(user_id, problem_id)` groups (missing keys dropped, as `groupby` does)
whose `ms_first_response` values are not monotonically increasing. -/
def sequential_issues (cols : List String) (sortedRows : List Row) : Nat :=
  let iu := colIdx cols "user_id"
  let ip := colIdx cols "problem_id"
  let im := colIdx cols "ms_first_response"
  let ks := (sortedRows.map (keyOf iu ip)).filter
    (fun k => !k.1.isMissing && !k.2.isMissing)
  (dedupBy keyEqB ks).countP (fun k =>
    !monoInc ((sortedRows.filter (fun r => keyEqB (keyOf iu ip r) k)).map
      (fun r => cell r im)))

/-- `check_sequential_order`: stable sort by
`(user_id, problem_id, ms_first_response)` (KeyError when a sort column is
absent), count non-monotonic groups, return the count and the re-ordered
dataframe. -/
def check_sequential_order (d : DF) : Except String (Nat × DF) :=
  if "user_id" ∈ d.cols ∧ "problem_id" ∈ d.cols ∧ "ms_first_response" ∈ d.cols
  then
    let iu := colIdx d.cols "user_id"
    let ip := colIdx d.cols "problem_id"
    let im := colIdx d.cols "ms_first_response"
    let sorted := List.insertionSort (rowLe iu ip im) d.rows
    .ok (sequential_issues d.cols sorted, ⟨d.cols, sorted⟩)
  else .error "KeyError"

/-! ### Stage 9: `process_data` -/

/-- The `keep_cols` projection list of `process_data`. -/
def keep_cols : List String :=
  ["user_id", "problem_id", "template_id", "skill_id", "skill_name",
   "teacher_id", "student_class_id", "school_id",
   "correct", "attempt_count", "ms_first_response",
   "hint_count", "hint_total", "hint_independence"]

/-- `df[cs]` column projection (KeyError when a requested column is
absent). -/
def selectCols (d : DF) (cs : List String) : Except String DF :=
  if cs.all (fun c => d.cols.contains c) then
    .ok ⟨cs, d.rows.map (fun r => cs.map (fun c => cell r (colIdx d.cols c)))⟩
  else .error "KeyError"

/-- `process_data`: the full pipeline. -/
def process_data (df : DF) : Except String DF := do
  let d0 := remove_duplicates df
  let d1 ← remove_missing_values d0 critical_columns
  let d2 ← fix_logic_errors d1
  let d3 := normalize_response_time d2 3600
  let d4 ← add_hint_independence d3
  let d5 ← convert_data_types d4
  let (_, d6) ← check_sequential_order d5
  selectCols d6 keep_cols

/-! ### Toolkit: cells and row updates -/

theorem cell_set_self (r : Row) (i : Nat) (h : i < r.length) (v : Value) :
    cell (r.set i v) i = v := by
  simp [cell, List.getD, List.getElem?_set_self', h]

theorem cell_set_ne (r : Row) {i j : Nat} (h : j ≠ i) (v : Value) :
    cell (r.set i v) j = cell r j := by
  simp [cell, List.getD, List.getElem?_set_ne (Ne.symm h)]

theorem cell_append_lt (r : Row) (v : Value) {j : Nat} (h : j < r.length) :
    cell (r ++ [v]) j = cell r j := by
  simp [cell, List.getD, List.get?_eq_getElem?, List.getElem?_append_left h]

theorem cell_append_self (r : Row) (v : Value) :
    cell (r ++ [v]) r.length = v := by
  simp [cell, List.getD]

theorem cell_of_length_le (r : Row) {i : Nat} (h : r.length ≤ i) :
    cell r i = .missing := by
  simp [cell, List.getD, List.getElem?_eq_none h]

theorem set_cell_eq_self {r : Row} {i : Nat} {v : Value} (h : cell r i = v) :
    r.set i v = r := by
  rcases lt_or_ge i r.length with hi | hi
  · apply List.ext_getElem?
    intro n
    rcases eq_or_ne n i with rfl | hne
    · rw [List.getElem?_set_self', List.getElem?_eq_getElem hi]
      rw [cell, List.getD, List.get?_eq_getElem?, List.getElem?_eq_getElem hi] at h
      simp_all
    · rw [List.getElem?_set_ne (Ne.symm hne)]
  · exact List.set_eq_of_length_le hi

theorem length_set_row (r : Row) (i : Nat) (v : Value) :
    (r.set i v).length = r.length := List.length_set ..

/-! ### Toolkit: column positions -/

theorem colIdx_lt_length {cols : List String} {c : String} (h : c ∈ cols) :
    colIdx cols c < cols.length := List.indexOf_lt_length.2 h

theorem colIdx_getElem {cols : List String} {c : String} (h : c ∈ cols) :
    cols.get ⟨colIdx cols c, colIdx_lt_length h⟩ = c :=
  List.getElem_indexOf _

theorem colIdx_inj {cols : List String} {c c' : String}
    (hc : c ∈ cols) (hc' : c' ∈ cols) (h : colIdx cols c = colIdx cols c') :
    c = c' := by
  have h1 := colIdx_getElem hc
  have h2 := colIdx_getElem hc'
  rw [← h1, ← h2]
  exact congrArg cols.get (Fin.ext h)

theorem colIdx_append_of_mem {cols l : List String} {c : String} (h : c ∈ cols) :
    colIdx (cols ++ l) c = colIdx cols c := List.indexOf_append_of_mem h

/-! ### Toolkit: `mapE` -/

theorem mapE_ok_forall₂ {f : α → Except String β} :
    ∀ {l : List α} {l' : List β}, mapE f l = .ok l' →
      List.Forall₂ (fun a b => f a = .ok b) l l'
  | [], l', h => by
      simp only [mapE] at h
      cases h
      exact List.Forall₂.nil
  | a :: l, l', h => by
      simp only [mapE, bind, Except.bind] at h
      cases hfa : f a with
      | error e => rw [hfa] at h; simp at h
      | ok b =>
          rw [hfa] at h
          simp only at h
          cases hml : mapE f l with
          | error e => rw [hml] at h; simp [bind, Except.bind] at h
          | ok bs =>
              rw [hml] at h
              simp only [bind, Except.bind, pure, Except.pure] at h
              cases h
              exact List.Forall₂.cons hfa (mapE_ok_forall₂ hml)

theorem mapE_ok_of_map {f : α → Except String β} {g : α → β} :
    ∀ {l : List α}, (∀ a ∈ l, f a = .ok (g a)) → mapE f l = .ok (l.map g)
  | [], _ => rfl
  | a :: l, h => by
      have ha := h a (List.mem_cons_self a l)
      have hl := mapE_ok_of_map (f := f) (g := g)
        (fun x hx => h x (List.mem_cons_of_mem a hx))
      simp only [mapE, ha, hl, bind, Except.bind, List.map, pure, Except.pure]

theorem mapE_ok_exists {f : α → Except String β} :
    ∀ {l : List α}, (∀ a ∈ l, ∃ b, f a = .ok b) →
      ∃ l', mapE f l = .ok l'
  | [], _ => ⟨[], rfl⟩
  | a :: l, h => by
      obtain ⟨b, hb⟩ := h a (List.mem_cons_self a l)
      obtain ⟨l', hl'⟩ := mapE_ok_exists (f := f)
        (fun x hx => h x (List.mem_cons_of_mem a hx))
      exact ⟨b :: l', by
        simp only [mapE, hb, hl', bind, Except.bind, pure, Except.pure]⟩

theorem mapE_ok_id {f : α → Except String α} {l : List α}
    (h : ∀ a ∈ l, f a = .ok a) : mapE f l = .ok l := by
  have := mapE_ok_of_map (g := id) (by simpa using h)
  simpa using this

/-! ### Toolkit: `dedupBy` -/

theorem dedupByGo_sublist (eq : α → α → Bool) :
    ∀ (seen : List α) (l : List α), List.Sublist (dedupByGo eq seen l) l
  | _, [] => List.Sublist.refl []
  | seen, a :: l => by
      rw [dedupByGo]
      split
      · exact List.Sublist.cons a (dedupByGo_sublist eq seen l)
      · exact List.Sublist.cons₂ a (dedupByGo_sublist eq (a :: seen) l)

theorem dedupBy_sublist (eq : α → α → Bool) (l : List α) :
    List.Sublist (dedupBy eq l) l := dedupByGo_sublist eq [] l

theorem dedupByGo_eq_self (eq : α → α → Bool) :
    ∀ (seen : List α) (l : List α),
      (∀ s ∈ seen, ∀ a ∈ l, eq s a = false) →
      l.Pairwise (fun a b => eq a b = false) →
      dedupByGo eq seen l = l
  | _, [], _, _ => rfl
  | seen, a :: l, hseen, hpw => by
      rw [dedupByGo]
      rw [List.pairwise_cons] at hpw
      have hnone : (seen.any (fun s => eq s a)) = false := by
        rw [List.any_eq_false]
        intro s hs
        simp [hseen s hs a (List.mem_cons_self a l)]
      rw [hnone]
      simp only [Bool.false_eq_true, if_false]
      congr 1
      apply dedupByGo_eq_self eq (a :: seen) l
      · intro s hs x hx
        rcases List.mem_cons.1 hs with rfl | hs'
        · exact hpw.1 x hx
        · exact hseen s hs' x (List.mem_cons_of_mem a hx)
      · exact hpw.2

theorem dedupBy_eq_self (eq : α → α → Bool) (l : List α)
    (h : l.Pairwise (fun a b => eq a b = false)) : dedupBy eq l = l :=
  dedupByGo_eq_self eq [] l (by simp) h

theorem mem_dedupByGo_not_seen (eq : α → α → Bool) :
    ∀ (seen l : List α) (b : α), b ∈ dedupByGo eq seen l →
      ∀ s ∈ seen, eq s b = false
  | _, [], b, hb => by simp [dedupByGo] at hb
  | seen, x :: xs, b, hb => by
      rw [dedupByGo] at hb
      by_cases hx : (seen.any (fun s => eq s x)) = true
      · rw [if_pos hx] at hb
        exact mem_dedupByGo_not_seen eq seen xs b hb
      · rw [if_neg hx] at hb
        rcases List.mem_cons.1 hb with rfl | hb'
        · intro s hs
          simp only [Bool.not_eq_true, List.any_eq_false] at hx
          exact hx s hs
        · intro s hs
          exact mem_dedupByGo_not_seen eq (x :: seen) xs b hb' s
            (List.mem_cons_of_mem x hs)

theorem dedupByGo_pairwise (eq : α → α → Bool) :
    ∀ (seen : List α) (l : List α),
      (dedupByGo eq seen l).Pairwise (fun a b => eq a b = false)
  | _, [] => List.Pairwise.nil
  | seen, a :: l => by
      rw [dedupByGo]
      split
      · exact dedupByGo_pairwise eq seen l
      · rw [List.pairwise_cons]
        refine ⟨?_, dedupByGo_pairwise eq _ l⟩
        intro b hb
        exact mem_dedupByGo_not_seen eq (a :: seen) l b hb a
          (List.mem_cons_self a seen)

theorem dedupBy_pairwise (eq : α → α → Bool) (l : List α) :
    (dedupBy eq l).Pairwise (fun a b => eq a b = false) :=
  dedupByGo_pairwise eq [] l

/-! ### Toolkit: the sort order -/

theorem vKey_le_iff (a b : Value) :
    vKey a ≤ vKey b ↔
      vRank a < vRank b ∨
        (vRank a = vRank b ∧ (vQ a < vQ b ∨ (vQ a = vQ b ∧ vS a ≤ vS b))) := by
  rw [vKey, vKey, Prod.Lex.le_iff, Prod.Lex.le_iff]

theorem vleB_iff (a b : Value) : vleB a b = true ↔ vKey a ≤ vKey b := by
  rw [vKey_le_iff]
  cases a <;> cases b <;>
    simp [vleB, vRank, vQ, vS, Frac.le_iff, Frac.ofInt_val,
      le_iff_lt_or_eq, Int.cast_lt, Int.cast_inj]

theorem vleB_of_le {a b : Value} (h : vKey a ≤ vKey b) : vleB a b = true :=
  (vleB_iff a b).2 h

theorem vleB_false_of_lt {a b : Value} (h : vKey b < vKey a) :
    vleB a b = false := by
  have hne : ¬ vleB a b = true := fun hc =>
    absurd ((vleB_iff a b).1 hc) (not_le_of_lt h)
  simpa using hne

theorem vKey_eq_of_valueEq {a b : Value} (h : valueEq a b = true) :
    vKey a = vKey b := by
  cases a <;> cases b <;> simp [valueEq] at h <;>
    simp_all [vKey, vRank, vQ, vS, Frac.eq_iff, Frac.ofInt_val]

theorem rowKey_le_iff (iu ip im : Nat) (r1 r2 : Row) :
    rowKey iu ip im r1 ≤ rowKey iu ip im r2 ↔
      vKey (cell r1 iu) < vKey (cell r2 iu) ∨
        (vKey (cell r1 iu) = vKey (cell r2 iu) ∧
          (vKey (cell r1 ip) < vKey (cell r2 ip) ∨
            (vKey (cell r1 ip) = vKey (cell r2 ip) ∧
              vKey (cell r1 im) ≤ vKey (cell r2 im)))) := by
  rw [rowKey, rowKey, Prod.Lex.le_iff, Prod.Lex.le_iff]

theorem rowLeB_iff (iu ip im : Nat) (r1 r2 : Row) :
    rowLeB iu ip im r1 r2 = true ↔
      rowKey iu ip im r1 ≤ rowKey iu ip im r2 := by
  rw [rowKey_le_iff]
  simp only [rowLeB]
  rcases lt_trichotomy (vKey (cell r1 iu)) (vKey (cell r2 iu)) with hu | hu | hu
  · rw [vleB_of_le (le_of_lt hu), vleB_false_of_lt hu]
    simp [hu]
  · rw [vleB_of_le (le_of_eq hu), vleB_of_le (le_of_eq hu.symm)]
    simp only [Bool.not_true, Bool.false_eq_true, if_false]
    rcases lt_trichotomy (vKey (cell r1 ip)) (vKey (cell r2 ip)) with hp | hp | hp
    · rw [vleB_of_le (le_of_lt hp), vleB_false_of_lt hp]
      simp [hu, hp, lt_irrefl]
    · rw [vleB_of_le (le_of_eq hp), vleB_of_le (le_of_eq hp.symm)]
      simp [hu, hp, vleB_iff, lt_irrefl]
    · rw [vleB_false_of_lt hp]
      simp [hu, hp, lt_asymm hp, lt_irrefl, ne_of_gt hp]
  · rw [vleB_false_of_lt hu]
    simp [lt_asymm hu, ne_of_gt hu]

instance (iu ip im : Nat) : IsTotal Row (rowLe iu ip im) := by
  constructor
  intro a b
  rw [rowLe, rowLe, rowLeB_iff, rowLeB_iff]
  exact le_total _ _

instance (iu ip im : Nat) : IsTrans Row (rowLe iu ip im) := by
  constructor
  intro a b c hab hbc
  rw [rowLe, rowLeB_iff] at hab hbc ⊢
  exact le_trans hab hbc

/-! ### Toolkit: indexed row correspondence -/

theorem forall₂_length {R : α → β → Prop} {l1 : List α} {l2 : List β}
    (h : List.Forall₂ R l1 l2) : l1.length = l2.length :=
  List.Forall₂.length_eq h

theorem forall₂_getD {R : α → β → Prop} {l1 : List α} {l2 : List β}
    (h : List.Forall₂ R l1 l2) (d1 : α) (d2 : β) :
    ∀ i, i < l1.length → R (l1.getD i d1) (l2.getD i d2) := by
  induction h with
  | nil => intro i hi; simp at hi
  | cons hr _ ih =>
      intro i hi
      cases i with
      | zero => simpa using hr
      | succ n =>
          simp only [List.getD_cons_succ]
          exact ih n (by simpa using Nat.lt_of_succ_lt_succ hi)

theorem colIdx_append_self {cols : List String} {c : String} (h : c ∉ cols) :
    colIdx (cols ++ [c]) c = cols.length := by
  rw [colIdx, List.indexOf_append_of_not_mem h]
  simp [List.indexOf_cons_self]

theorem forall₂_mem_right {R : α → β → Prop} {l1 : List α} {l2 : List β}
    (h : List.Forall₂ R l1 l2) : ∀ b ∈ l2, ∃ a ∈ l1, R a b := by
  induction h with
  | nil => intro b hb; simp at hb
  | cons hr _ ih =>
      intro b hb
      rcases List.mem_cons.1 hb with rfl | hb'
      · exact ⟨_, List.mem_cons_self .., hr⟩
      · obtain ⟨a, ha, hab⟩ := ih b hb'
        exact ⟨a, List.mem_cons_of_mem _ ha, hab⟩

theorem getD_mem_row {l : List Row} {i : Nat} (h : i < l.length) :
    l.getD i [] ∈ l := by
  rw [List.getD_eq_getElem l [] h]
  exact List.getElem_mem h

/-- Everything `setColE` guarantees on success. -/
theorem setColE_ok_spec {d : DF} {c : String} {f : Row → Except String Value}
    {d' : DF} (hal : Aligned d) (h : setColE d c f = .ok d') :
    ((c ∈ d.cols → d'.cols = d.cols) ∧ (c ∉ d.cols → d'.cols = d.cols ++ [c]))
      ∧ d'.rows.length = d.rows.length ∧ Aligned d' ∧
      ∀ i, i < d.rows.length →
        ((∃ v, f (d.rows.getD i []) = .ok v) ∧
          (∀ v, f (d.rows.getD i []) = .ok v →
            colv d' c (d'.rows.getD i []) = v) ∧
          (∀ c', c' ∈ d.cols → c' ≠ c →
            colv d' c' (d'.rows.getD i []) = colv d c' (d.rows.getD i []))) := by
  by_cases hc : c ∈ d.cols
  · rw [setColE, if_pos hc] at h
    cases hrows : mapE (fun r => do
        let v ← f r
        pure (r.set (colIdx d.cols c) v)) d.rows with
    | error e => rw [hrows] at h; simp [bind, Except.bind] at h
    | ok rows =>
        rw [hrows] at h
        simp only [bind, Except.bind, pure, Except.pure] at h
        cases h
        have hf := mapE_ok_forall₂ hrows
        have hlen := forall₂_length hf
        have hidx : colIdx d.cols c < d.cols.length := colIdx_lt_length hc
        have hstep : ∀ a b, (do
              let v ← f a
              pure (a.set (colIdx d.cols c) v) : Except String Row) = .ok b →
            ∃ v, f a = .ok v ∧ b = a.set (colIdx d.cols c) v := by
          intro a b hab
          cases hfa : f a with
          | error e => rw [hfa] at hab; simp [bind, Except.bind] at hab
          | ok v =>
              rw [hfa] at hab
              simp only [bind, Except.bind, pure, Except.pure] at hab
              cases hab
              exact ⟨v, rfl, rfl⟩
        refine ⟨⟨fun _ => rfl, fun hnc => absurd hc hnc⟩, hlen.symm, ?_, ?_⟩
        · intro b hb
          obtain ⟨a, ha, hab⟩ := forall₂_mem_right hf b hb
          obtain ⟨v, _, rfl⟩ := hstep a b hab
          rw [length_set_row]
          exact hal a ha
        · intro i hi
          have hrel := forall₂_getD hf [] [] i hi
          obtain ⟨v, hv, heq⟩ := hstep _ _ hrel
          have halen : (d.rows.getD i []).length = d.cols.length :=
            hal _ (getD_mem_row hi)
          refine ⟨⟨v, hv⟩, ?_, ?_⟩
          · intro v' hv'
            rw [hv] at hv'
            cases hv'
            rw [heq, colv, cell_set_self _ _ (by rw [halen]; exact hidx)]
          · intro c' hc' hne
            have hne' : colIdx d.cols c' ≠ colIdx d.cols c := fun hcontra =>
              hne (colIdx_inj hc' hc hcontra)
            rw [heq, colv, colv, cell_set_ne _ hne']
  · rw [setColE, if_neg hc] at h
    cases hrows : mapE (fun r => do
        let v ← f r
        pure (r ++ [v])) d.rows with
    | error e => rw [hrows] at h; simp [bind, Except.bind] at h
    | ok rows =>
        rw [hrows] at h
        simp only [bind, Except.bind, pure, Except.pure] at h
        cases h
        have hf := mapE_ok_forall₂ hrows
        have hlen := forall₂_length hf
        have hstep : ∀ a b, (do
              let v ← f a
              pure (a ++ [v]) : Except String Row) = .ok b →
            ∃ v, f a = .ok v ∧ b = a ++ [v] := by
          intro a b hab
          cases hfa : f a with
          | error e => rw [hfa] at hab; simp [bind, Except.bind] at hab
          | ok v =>
              rw [hfa] at hab
              simp only [bind, Except.bind, pure, Except.pure] at hab
              cases hab
              exact ⟨v, rfl, rfl⟩
        refine ⟨⟨fun hcc => absurd hcc hc, fun _ => rfl⟩, hlen.symm, ?_, ?_⟩
        · intro b hb
          obtain ⟨a, ha, hab⟩ := forall₂_mem_right hf b hb
          obtain ⟨v, _, rfl⟩ := hstep a b hab
          simp [hal a ha]
        · intro i hi
          have hrel := forall₂_getD hf [] [] i hi
          obtain ⟨v, hv, heq⟩ := hstep _ _ hrel
          have halen : (d.rows.getD i []).length = d.cols.length :=
            hal _ (getD_mem_row hi)
          refine ⟨⟨v, hv⟩, ?_, ?_⟩
          · intro v' hv'
            rw [hv] at hv'
            cases hv'
            rw [heq, colv, colIdx_append_self hc]
            rw [show d.cols.length = (d.rows.getD i []).length from halen.symm]
            exact cell_append_self _ _
          · intro c' hc' hne
            rw [heq, colv, colv, colIdx_append_of_mem hc',
              cell_append_lt _ _ (by rw [halen]; exact colIdx_lt_length hc')]

/-! ### The feature formula -/

theorem div_oneMinus_val (fa fb : Frac) (hb : fb.num ≠ 0) :
    (fa.div fb).oneMinus.val = 1 - fa.val / fb.val := by
  rw [Frac.oneMinus_val, Frac.div_val fa fb hb]

theorem mem_iff_getD {l : List Row} {r : Row} :
    r ∈ l ↔ ∃ i, ∃ _ : i < l.length, l.getD i [] = r := by
  constructor
  · intro h
    obtain ⟨i, hi, hr⟩ := List.mem_iff_getElem.1 h
    exact ⟨i, hi, by rw [List.getD_eq_getElem l [] hi]; exact hr⟩
  · rintro ⟨i, hi, rfl⟩
    exact getD_mem_row hi

/-- `1 - hc / ht.replace(0,1)` on numeric cells: always a float whose value
is the claimed formula. -/
theorem hintIndepVal_num {hc ht : Value} {q1 q2 : ℚ}
    (h1 : toQ hc = some q1) (h2 : toQ ht = some q2) :
    ∃ f : Frac, hintIndepVal hc ht = .ok (.float f) ∧
      f.val = 1 - q1 / (if q2 = 0 then 1 else q2) := by
  obtain ⟨fa, hfa, hfav⟩ : ∃ fa, toF hc = some fa ∧ fa.val = q1 := by
    cases hc with
    | int n =>
        refine ⟨Frac.ofInt n, rfl, ?_⟩
        simp only [toQ, Option.some_inj] at h1
        rw [Frac.ofInt_val, h1]
    | float g =>
        refine ⟨g, rfl, ?_⟩
        simpa [toQ] using h1
    | str s => simp [toQ] at h1
    | missing => simp [toQ] at h1
  obtain ⟨fb0, hfb0, hfb0v⟩ : ∃ fb, toF ht = some fb ∧ fb.val = q2 := by
    cases ht with
    | int n =>
        refine ⟨Frac.ofInt n, rfl, ?_⟩
        simp only [toQ, Option.some_inj] at h2
        rw [Frac.ofInt_val, h2]
    | float g =>
        refine ⟨g, rfl, ?_⟩
        simpa [toQ] using h2
    | str s => simp [toQ] at h2
    | missing => simp [toQ] at h2
  have hzq : valueEq ht (.int 0) = true ↔ q2 = 0 := by
    cases ht with
    | int n =>
        simp only [toQ, Option.some_inj] at h2
        simp [valueEq, ← h2]
    | float g =>
        simp only [toQ, Option.some_inj] at h2
        simp [valueEq, Frac.eq_iff, Frac.ofInt_val, ← h2]
    | str s => simp [toQ] at h2
    | missing => simp [toQ] at h2
  by_cases hz : valueEq ht (.int 0) = true
  · have hq2 : q2 = 0 := hzq.1 hz
    have hdiv : pyDiv hc (.int 1) = .ok (.float (fa.div (Frac.ofInt 1))) := by
      cases hc with
      | int n =>
          simp only [toF, Option.some_inj] at hfa
          simp [pyDiv, toF, Frac.ofInt, ← hfa]
      | float g =>
          simp only [toF, Option.some_inj] at hfa
          simp [pyDiv, toF, Frac.ofInt, ← hfa]
      | str s => simp [toQ] at h1
      | missing => simp [toQ] at h1
    refine ⟨(fa.div (Frac.ofInt 1)).oneMinus, ?_, ?_⟩
    · rw [hintIndepVal, if_pos hz, hdiv]
      rfl
    · rw [div_oneMinus_val _ _ (by simp [Frac.ofInt]), hfav, Frac.ofInt_val,
        if_pos hq2]
      norm_num
  · have hq2 : q2 ≠ 0 := fun hcon => hz (hzq.2 hcon)
    have hb : fb0.num ≠ 0 := fun hcon =>
      hq2 (by rw [← hfb0v]; exact (Frac.num_eq_zero_iff fb0).1 hcon)
    have hdiv : pyDiv hc ht = .ok (.float (fa.div fb0)) := by
      cases hc with
      | str s => simp [toQ] at h1
      | missing => simp [toQ] at h1
      | int n =>
          simp only [toF, Option.some_inj] at hfa
          cases ht with
          | str s => simp [toQ] at h2
          | missing => simp [toQ] at h2
          | int m =>
              simp only [toF, Option.some_inj] at hfb0
              simp [pyDiv, toF, hfa, hfb0, hb]
          | float g =>
              simp only [toF, Option.some_inj] at hfb0
              simp [pyDiv, toF, hfa, hfb0, hb]
      | float g =>
          simp only [toF, Option.some_inj] at hfa
          cases ht with
          | str s => simp [toQ] at h2
          | missing => simp [toQ] at h2
          | int m =>
              simp only [toF, Option.some_inj] at hfb0
              simp [pyDiv, toF, hfa, hfb0, hb]
          | float g' =>
              simp only [toF, Option.some_inj] at hfb0
              simp [pyDiv, toF, hfa, hfb0, hb]
    refine ⟨(fa.div fb0).oneMinus, ?_, ?_⟩
    · rw [hintIndepVal, if_neg hz, hdiv]
      rfl
    · rw [div_oneMinus_val _ _ hb, hfav, hfb0v, if_neg hq2]

/-- `setColE` succeeds as soon as the per-row computation succeeds. -/
theorem setColE_ok_exists {d : DF} {c : String} {f : Row → Except String Value}
    (h : ∀ r ∈ d.rows, ∃ v, f r = .ok v) :
    ∃ d', setColE d c f = .ok d' := by
  by_cases hc : c ∈ d.cols
  · obtain ⟨rows, hrows⟩ := mapE_ok_exists
      (f := fun r => do
        let v ← f r
        pure (r.set (colIdx d.cols c) v))
      (l := d.rows)
      (fun r hr => by
        obtain ⟨v, hv⟩ := h r hr
        exact ⟨r.set (colIdx d.cols c) v, by
          simp [hv, bind, Except.bind, pure, Except.pure]⟩)
    exact ⟨⟨d.cols, rows⟩, by
      rw [setColE, if_pos hc, hrows]
      simp [bind, Except.bind, pure, Except.pure]⟩
  · obtain ⟨rows, hrows⟩ := mapE_ok_exists
      (f := fun r => do
        let v ← f r
        pure (r ++ [v]))
      (l := d.rows)
      (fun r hr => by
        obtain ⟨v, hv⟩ := h r hr
        exact ⟨r ++ [v], by
          simp [hv, bind, Except.bind, pure, Except.pure]⟩)
    exact ⟨⟨d.cols ++ [c], rows⟩, by
      rw [setColE, if_neg hc, hrows]
      simp [bind, Except.bind, pure, Except.pure]⟩

/-! ### Claim C3: the feature deriver -/

/-- **C3.** For every row surviving filtering and repair (numeric hint
cells, as the pipeline guarantees at this stage), the feature deriver adds
`hint_independence = 1 − hint_count / effective_hint_total`, where
`effective_hint_total` equals `hint_total` unless `hint_total = 0`, in
which case it equals `1`; concretely `hint_count=2, hint_total=4` gives
`0.5` and `hint_count=0, hint_total=0` gives `1`. -/
theorem C3_feature_deriver :
    (∀ d : DF, Aligned d →
      "hint_count" ∈ d.cols → "hint_total" ∈ d.cols →
      (∀ i, i < d.rows.length → ∃ q1 q2,
        toQ (colv d "hint_count" (d.rows.getD i [])) = some q1 ∧
        toQ (colv d "hint_total" (d.rows.getD i [])) = some q2) →
      ∃ d', add_hint_independence d = .ok d' ∧
        "hint_independence" ∈ d'.cols ∧
        d'.rows.length = d.rows.length ∧
        ∀ i, i < d.rows.length → ∀ q1 q2,
          toQ (colv d "hint_count" (d.rows.getD i [])) = some q1 →
          toQ (colv d "hint_total" (d.rows.getD i [])) = some q2 →
          ∃ f : Frac,
            colv d' "hint_independence" (d'.rows.getD i []) = .float f ∧
            f.val = 1 - q1 / (if q2 = 0 then 1 else q2)) ∧
    (∃ d', add_hint_independence
        ⟨["hint_count", "hint_total"],
         [[.int 2, .int 4], [.int 0, .int 0]]⟩ = .ok d' ∧
      colv d' "hint_independence" (d'.rows.getD 0 []) = .float ⟨2, 4⟩ ∧
      (Frac.mk 2 4).val = 1 / 2 ∧
      colv d' "hint_independence" (d'.rows.getD 1 []) = .float ⟨1, 1⟩ ∧
      (Frac.mk 1 1).val = 1) := by
  constructor
  · intro d hal hhc hht hnum
    have hrows : ∀ r ∈ d.rows, ∃ v,
        hintIndepVal (cell r (colIdx d.cols "hint_count"))
          (cell r (colIdx d.cols "hint_total")) = .ok v := by
      intro r hr
      obtain ⟨i, hi, rfl⟩ := mem_iff_getD.1 hr
      obtain ⟨q1, q2, hq1, hq2⟩ := hnum i hi
      obtain ⟨f, hf, _⟩ := hintIndepVal_num hq1 hq2
      exact ⟨.float f, hf⟩
    obtain ⟨d', hd'⟩ := setColE_ok_exists hrows
    have hadd : add_hint_independence d = .ok d' := by
      rw [add_hint_independence, if_pos ⟨hhc, hht⟩]
      exact hd'
    have spec := setColE_ok_spec hal hd'
    refine ⟨d', hadd, ?_, spec.2.1, ?_⟩
    · by_cases hmem : "hint_independence" ∈ d.cols
      · rw [spec.1.1 hmem]; exact hmem
      · rw [spec.1.2 hmem]; simp
    · intro i hi q1 q2 hq1 hq2
      obtain ⟨f, hf, hval⟩ := hintIndepVal_num hq1 hq2
      exact ⟨f, (spec.2.2.2 i hi).2.1 (.float f) hf, hval⟩
  · refine ⟨⟨["hint_count", "hint_total", "hint_independence"],
      [[.int 2, .int 4, .float ⟨2, 4⟩], [.int 0, .int 0, .float ⟨1, 1⟩]]⟩,
      by decide, by decide, ?_, by decide, ?_⟩
    · rw [Frac.val_mk 2 4 (by decide)]
      norm_num
    · rw [Frac.val_mk 1 1 (by decide)]
      norm_num

/-- Witness for C3: the general part applied to the concrete two-row
dataframe of the scenario. -/
theorem C3_feature_deriver_witness :
    ∃ d', add_hint_independence
        ⟨["hint_count", "hint_total"],
         [[.int 2, .int 4], [.int 0, .int 0]]⟩ = .ok d' ∧
      "hint_independence" ∈ d'.cols ∧
      d'.rows.length = 2 ∧
      ∀ i, i < 2 → ∀ q1 q2,
        toQ (colv ⟨["hint_count", "hint_total"],
          [[.int 2, .int 4], [.int 0, .int 0]]⟩ "hint_count"
          ([[Value.int 2, Value.int 4], [Value.int 0, Value.int 0]].getD i []))
          = some q1 →
        toQ (colv ⟨["hint_count", "hint_total"],
          [[.int 2, .int 4], [.int 0, .int 0]]⟩ "hint_total"
          ([[Value.int 2, Value.int 4], [Value.int 0, Value.int 0]].getD i []))
          = some q2 →
        ∃ f : Frac,
          colv d' "hint_independence" (d'.rows.getD i []) = .float f ∧
          f.val = 1 - q1 / (if q2 = 0 then 1 else q2) :=
  C3_feature_deriver.1
    ⟨["hint_count", "hint_total"], [[.int 2, .int 4], [.int 0, .int 0]]⟩
    (by decide) (by decide) (by decide)
    (fun i hi => by
      have hi2 : i < 2 := by simpa using hi
      clear hi
      interval_cases i
      · exact ⟨((2 : ℤ) : ℚ), ((4 : ℤ) : ℚ), rfl, rfl⟩
      · exact ⟨((0 : ℤ) : ℚ), ((0 : ℤ) : ℚ), rfl, rfl⟩)

/-! ### Claim C2: the response-time normalizer -/

/-- `lo ≤ v ≤ hi` for a numeric cell. -/
def msInRange (lo hi : Int) (v : Value) : Bool :=
  match toF v with
  | some f => (Frac.ofInt lo).le f && f.le (Frac.ofInt hi)
  | none => false

/-- **C2, counterexample.**  A negative `ms_first_response` passes through
the normalizer unchanged: the output is numeric but not in `[0, 3600]`,
refuting the claimed lower bound. -/
theorem C2_normalizer_counterexample :
    ¬ (∀ r ∈ (normalize_response_time
          ⟨["ms_first_response"], [[.int (-5)]]⟩ 3600).rows,
        msInRange 0 3600
          (colv (normalize_response_time
            ⟨["ms_first_response"], [[.int (-5)]]⟩ 3600)
            "ms_first_response" r) = true) := by
  decide

/-- **C2, amended.**  After the normalizer every `ms_first_response` value
is numeric and at most `max_seconds = 3600` (parse failures and missing
become `0`, larger values are clamped down), and it lies in `[0, 3600]`
provided no input parses to a negative number — negative values pass
through unchanged.  Concretely `10000` becomes `3600` and `"abc"` becomes
`0`. -/
theorem C2_normalizer_amended :
    (∀ d : DF, Aligned d → "ms_first_response" ∈ d.cols →
      (∀ r ∈ d.rows, ∀ q,
        toQ (toNumericCoerce (colv d "ms_first_response" r)) = some q →
        0 ≤ q) →
      ∀ r' ∈ (normalize_response_time d 3600).rows,
        ∃ q, toQ (colv (normalize_response_time d 3600)
            "ms_first_response" r') = some q ∧ 0 ≤ q ∧ q ≤ 3600) ∧
    (normalize_response_time
        ⟨["ms_first_response"], [[.int 10000], [.str "abc"]]⟩ 3600
      = ⟨["ms_first_response"], [[.int 3600], [.int 0]]⟩) := by
  constructor
  · intro d hal hms hpos r' hr'
    rw [normalize_response_time, if_pos hms] at hr' ⊢
    simp only [List.mem_map] at hr'
    obtain ⟨r, hr, rfl⟩ := hr'
    have hidx : colIdx d.cols "ms_first_response" < r.length := by
      rw [hal r hr]
      exact colIdx_lt_length hms
    rw [colv, cell_set_self _ _ hidx]
    have hpos' : ∀ q,
        toQ (toNumericCoerce (cell r (colIdx d.cols "ms_first_response")))
          = some q → 0 ≤ q := hpos r hr
    set w := toNumericCoerce (cell r (colIdx d.cols "ms_first_response"))
      with hw
    have hwcases : (∃ n : Int, w = .int n) ∨ (∃ f : Frac, w = .float f) ∨
        w = .missing := by
      rw [hw]
      cases cell r (colIdx d.cols "ms_first_response") with
      | str s =>
          rw [toNumericCoerce]
          rcases parseIntLit s with _ | n
          · rcases parseDecLit s with _ | f
            · exact Or.inr (Or.inr rfl)
            · exact Or.inr (Or.inl ⟨f, rfl⟩)
          · exact Or.inl ⟨n, rfl⟩
      | int n => exact Or.inl ⟨n, rfl⟩
      | float f => exact Or.inr (Or.inl ⟨f, rfl⟩)
      | missing => exact Or.inr (Or.inr rfl)
    rcases hwcases with ⟨n, hn⟩ | ⟨f, hf⟩ | hm
    · have hn0 : (0 : ℚ) ≤ (n : ℚ) := hpos' _ (by rw [hn]; rfl)
      rw [hn, fillna0]
      simp only [Value.isMissing, Bool.false_eq_true, if_false]
      rw [clampHi]
      by_cases hgt : (3600 : Int) < n
      · rw [if_pos hgt]
        exact ⟨3600, rfl, by norm_num⟩
      · rw [if_neg hgt]
        refine ⟨(n : ℚ), rfl, hn0, ?_⟩
        push_neg at hgt
        exact_mod_cast hgt
    · have hf0 : (0 : ℚ) ≤ f.val := hpos' _ (by rw [hf]; rfl)
      rw [hf, fillna0]
      simp only [Value.isMissing, Bool.false_eq_true, if_false]
      rw [clampHi]
      by_cases hgt : (Frac.ofInt 3600).lt f = true
      · rw [if_pos hgt]
        exact ⟨3600, rfl, by norm_num⟩
      · rw [if_neg hgt]
        refine ⟨f.val, rfl, hf0, ?_⟩
        have hle : f.val ≤ ((3600 : Int) : ℚ) := not_lt.1 (fun hcon =>
          hgt ((Frac.lt_iff _ _).2 (by rw [Frac.ofInt_val]; exact hcon)))
        exact_mod_cast hle
    · rw [hm, fillna0]
      exact ⟨0, rfl, le_refl 0, by norm_num⟩
  · decide

/-- Witness for the amended C2: applied to a dataframe with a one-row
nonnegative `ms_first_response`. -/
theorem C2_normalizer_amended_witness :
    ∀ r' ∈ (normalize_response_time
        ⟨["ms_first_response"], [[.int 10]]⟩ 3600).rows,
      ∃ q, toQ (colv (normalize_response_time
          ⟨["ms_first_response"], [[.int 10]]⟩ 3600)
          "ms_first_response" r') = some q ∧ 0 ≤ q ∧ q ≤ 3600 :=
  C2_normalizer_amended.1 ⟨["ms_first_response"], [[.int 10]]⟩
    (by decide) (by decide)
    (fun r hr q hq => by
      have hr' : r = [Value.int 10] := by
        rcases List.mem_singleton.1 hr with rfl
        rfl
      subst hr'
      have : q = ((10 : ℤ) : ℚ) := by
        rw [show toNumericCoerce (colv ⟨["ms_first_response"], [[.int 10]]⟩
          "ms_first_response" [Value.int 10]) = Value.int 10 from rfl] at hq
        simpa [toQ] using hq.symm
      rw [this]
      positivity)

/-! ### Claim C7: deduplication -/

theorem cellDupEq_refl (v : Value) : cellDupEq v v = true := by
  cases v <;> simp [cellDupEq, valueEq, Frac.eq_iff, Value.isMissing]

theorem rowDupEq_refl (r : Row) : rowDupEq r r = true := by
  induction r with
  | nil => rfl
  | cons v r ih => simp [rowDupEq, cellDupEq_refl, ih]

theorem dedupByGo_complete (eq : α → α → Bool) (hrefl : ∀ a, eq a a = true) :
    ∀ (seen l : List α) (x : α), x ∈ l →
      (∃ y ∈ dedupByGo eq seen l, eq y x = true) ∨
        (∃ s ∈ seen, eq s x = true)
  | seen, a :: l, x, hx => by
      rw [dedupByGo]
      by_cases hs : (seen.any (fun s => eq s a)) = true
      · rw [if_pos hs]
        rcases List.mem_cons.1 hx with rfl | hx'
        · right
          obtain ⟨s, hsmem, hseq⟩ := List.any_eq_true.1 hs
          exact ⟨s, hsmem, hseq⟩
        · exact dedupByGo_complete eq hrefl seen l x hx'
      · rw [if_neg hs]
        rcases List.mem_cons.1 hx with rfl | hx'
        · exact Or.inl ⟨x, List.mem_cons_self .., hrefl x⟩
        · rcases dedupByGo_complete eq hrefl (a :: seen) l x hx' with
            ⟨y, hy, hyx⟩ | ⟨s, hsm, hsx⟩
          · exact Or.inl ⟨y, List.mem_cons_of_mem a hy, hyx⟩
          · rcases List.mem_cons.1 hsm with rfl | hsm'
            · exact Or.inl ⟨s, List.mem_cons_self .., hsx⟩
            · exact Or.inr ⟨s, hsm', hsx⟩

theorem dedupBy_complete (eq : α → α → Bool) (hrefl : ∀ a, eq a a = true)
    (l : List α) (x : α) (hx : x ∈ l) :
    ∃ y ∈ dedupBy eq l, eq y x = true := by
  rcases dedupByGo_complete eq hrefl [] l x hx with h | ⟨s, hs, _⟩
  · exact h
  · simp at hs

/-- The 13-column layout of the input dataframes used in the concrete
scenarios (the §3 data model without the derived column). -/
def inputCols : List String :=
  ["user_id", "problem_id", "template_id", "skill_id", "skill_name",
   "teacher_id", "student_class_id", "school_id",
   "correct", "attempt_count", "ms_first_response", "hint_count",
   "hint_total"]

/-- An input row with the eight identifiers fixed and the five numeric
fields as given. -/
def mkInRow (c att ms hc ht : Value) : Row :=
  [.str "u", .str "p", .str "t", .str "s", .str "n",
   .str "te", .str "cl", .str "sc", c, att, ms, hc, ht]

/-- Two distinct input rows (`correct = 2` vs `correct = 3`) that the
boolean-domain repair maps to the same row. -/
def dupInput : DF :=
  ⟨inputCols, [mkInRow (.int 2) (.int 1) (.int 10) (.int 0) (.int 1),
               mkInRow (.int 3) (.int 1) (.int 10) (.int 0) (.int 1)]⟩

/-- The row both rows of `dupInput` become. -/
def dupOutRow : Row :=
  [.str "u", .str "p", .str "t", .str "s", .str "n",
   .str "te", .str "cl", .str "sc", .int 1, .int 1, .int 10, .int 0,
   .int 1, .float ⟨1, 1⟩]

/-- The pipeline's output on `dupInput`: two identical rows. -/
def dupOutput : DF := ⟨keep_cols, [dupOutRow, dupOutRow]⟩

/-- **C7, counterexample.**  Deduplication runs first, and the later
boolean-domain repair maps two distinct input rows (`correct = 2` and
`correct = 3`) to identical rows, so the pipeline's output contains two
byte-identical rows at distinct positions. -/
theorem C7_dedup_counterexample :
    ∃ out, process_data dupInput = .ok out ∧ out.rows.length = 2 ∧
      out.rows.getD 0 [] = out.rows.getD 1 [] :=
  ⟨dupOutput, by decide, by decide, by decide⟩

/-- **C7, amended.**  The deduplication *stage* guarantees pairwise
distinct rows (by pandas value equality, `NaN` equal to `NaN`): it keeps,
for every input row, a first matching occurrence, preserves the survivors'
order (its output is a sublist of its input), and leaves the columns
unchanged.  The pipeline's final output can nevertheless contain duplicate
rows, because later repair stages may map distinct surviving rows to equal
ones (see the counterexample). -/
theorem C7_dedup_amended :
    ∀ d : DF,
      (remove_duplicates d).cols = d.cols ∧
      List.Sublist (remove_duplicates d).rows d.rows ∧
      (remove_duplicates d).rows.Pairwise
        (fun r1 r2 => rowDupEq r1 r2 = false) ∧
      ∀ r ∈ d.rows, ∃ r' ∈ (remove_duplicates d).rows,
        rowDupEq r' r = true := by
  intro d
  refine ⟨rfl, dedupBy_sublist _ _, dedupBy_pairwise _ _, ?_⟩
  intro r hr
  exact dedupBy_complete rowDupEq rowDupEq_refl d.rows r hr

/-- Witness for the amended C7, on a concrete dataframe with one
duplicated row. -/
theorem C7_dedup_amended_witness :
    (remove_duplicates ⟨["a"], [[.int 1], [.int 1], [.int 2]]⟩).cols = ["a"] ∧
    List.Sublist
      (remove_duplicates ⟨["a"], [[.int 1], [.int 1], [.int 2]]⟩).rows
      [[.int 1], [.int 1], [.int 2]] ∧
    (remove_duplicates ⟨["a"], [[.int 1], [.int 1], [.int 2]]⟩).rows.Pairwise
      (fun r1 r2 => rowDupEq r1 r2 = false) ∧
    ∃ r' ∈ (remove_duplicates ⟨["a"], [[.int 1], [.int 1], [.int 2]]⟩).rows,
      rowDupEq r' [.int 1] = true :=
  ⟨(C7_dedup_amended ⟨["a"], [[.int 1], [.int 1], [.int 2]]⟩).1,
   (C7_dedup_amended ⟨["a"], [[.int 1], [.int 1], [.int 2]]⟩).2.1,
   (C7_dedup_amended ⟨["a"], [[.int 1], [.int 1], [.int 2]]⟩).2.2.1,
   (C7_dedup_amended ⟨["a"], [[.int 1], [.int 1], [.int 2]]⟩).2.2.2
     [.int 1] (by decide)⟩

/-! ### Claim C9: type-coercion idempotence -/

/-- A fold of per-column in-place updates, the shape of both halves of
`convert_data_types`. -/
def foldSet (t : String → Value → Value) (cols : List String)
    (L : List String) (r : Row) : Row :=
  L.foldl (fun q c => q.set (colIdx cols c) (t c (cell q (colIdx cols c)))) r

theorem strCast_eq_foldSet (cols : List String) (r : Row) :
    strCast cols r = foldSet (fun _ v => .str (pyStr v)) cols str_cols r := rfl

theorem intCast_eq_foldSet (cols : List String) (r : Row) :
    intCast cols r =
      foldSet (fun _ v => .int (toIntCoerce v)) cols
        (int_cols.filter (fun c => cols.contains c)) r := rfl

theorem foldSet_length (t : String → Value → Value) (cols : List String) :
    ∀ (L : List String) (r : Row), (foldSet t cols L r).length = r.length := by
  intro L
  induction L with
  | nil => intro r; rfl
  | cons c L ih =>
      intro r
      rw [foldSet, List.foldl_cons]
      rw [show (List.foldl _ _ L : Row) = foldSet t cols L
        (r.set (colIdx cols c) (t c (cell r (colIdx cols c)))) from rfl]
      rw [ih, length_set_row]

theorem foldSet_cell_frame (t : String → Value → Value) (cols : List String) :
    ∀ (L : List String) (r : Row) (j : Nat),
      (∀ c ∈ L, colIdx cols c ≠ j) →
      cell (foldSet t cols L r) j = cell r j := by
  intro L
  induction L with
  | nil => intro r j _; rfl
  | cons c L ih =>
      intro r j hj
      rw [foldSet, List.foldl_cons]
      rw [show (List.foldl _ _ L : Row) = foldSet t cols L
        (r.set (colIdx cols c) (t c (cell r (colIdx cols c)))) from rfl]
      rw [ih _ _ (fun c' hc' => hj c' (List.mem_cons_of_mem c hc')),
        cell_set_ne _ (Ne.symm (hj c (List.mem_cons_self ..)))]

theorem foldSet_cell_hit (t : String → Value → Value) (cols : List String) :
    ∀ (L : List String), L.Nodup → (∀ c ∈ L, c ∈ cols) →
      ∀ {c : String}, c ∈ L → ∀ (r : Row), colIdx cols c < r.length →
      cell (foldSet t cols L r) (colIdx cols c) =
        t c (cell r (colIdx cols c)) := by
  intro L
  induction L with
  | nil => intro _ _ c hc; simp at hc
  | cons c0 L ih =>
      intro hnd hmem c hc r hlt
      rw [List.nodup_cons] at hnd
      rw [foldSet, List.foldl_cons]
      rw [show (List.foldl _ _ L : Row) = foldSet t cols L
        (r.set (colIdx cols c0) (t c0 (cell r (colIdx cols c0)))) from rfl]
      rcases List.mem_cons.1 hc with rfl | hc'
      · rw [foldSet_cell_frame t cols L _ _ (fun c' hc' hcontra =>
          hnd.1 (by
            rw [colIdx_inj (hmem c' (List.mem_cons_of_mem c hc'))
              (hmem c (List.mem_cons_self ..)) hcontra] at hc'
            exact hc'))]
        exact cell_set_self _ _ hlt _
      · have hne : colIdx cols c ≠ colIdx cols c0 := fun hcontra =>
          hnd.1 (by
            rw [← colIdx_inj (hmem c (List.mem_cons_of_mem c0 hc'))
              (hmem c0 (List.mem_cons_self ..)) hcontra]
            exact hc')
        rw [ih hnd.2 (fun x hx => hmem x (List.mem_cons_of_mem c0 hx)) hc'
          _ (by rw [length_set_row]; exact hlt)]
        rw [cell_set_ne _ hne]

theorem foldSet_fix (t : String → Value → Value) (cols : List String) :
    ∀ (L : List String) (r : Row),
      (∀ c ∈ L, colIdx cols c < r.length →
        t c (cell r (colIdx cols c)) = cell r (colIdx cols c)) →
      foldSet t cols L r = r := by
  intro L
  induction L with
  | nil => intro r _; rfl
  | cons c L ih =>
      intro r hfix
      rw [foldSet, List.foldl_cons]
      rw [show (List.foldl _ _ L : Row) = foldSet t cols L
        (r.set (colIdx cols c) (t c (cell r (colIdx cols c)))) from rfl]
      have hset : r.set (colIdx cols c) (t c (cell r (colIdx cols c))) = r := by
        rcases lt_or_ge (colIdx cols c) r.length with hlt | hge
        · rw [hfix c (List.mem_cons_self ..) hlt]
          exact set_cell_eq_self rfl
        · exact List.set_eq_of_length_le hge
      rw [hset]
      exact ih r (fun c' hc' => hfix c' (List.mem_cons_of_mem c hc'))

theorem convert_row_idempotent (cols : List String)
    (hstr : ∀ c ∈ str_cols, c ∈ cols) (r : Row) :
    intCast cols (strCast cols (intCast cols (strCast cols r)))
      = intCast cols (strCast cols r) := by
  set Lint := int_cols.filter (fun c => cols.contains c) with hLint
  have hintnd : Lint.Nodup := List.Nodup.filter _ (by decide)
  have hintmem : ∀ c ∈ Lint, c ∈ cols := by
    intro c hc
    have := (List.mem_filter.1 hc).2
    simpa using this
  have hnotin : ∀ c ∈ str_cols, c ∉ int_cols := by decide
  have hdisj : ∀ c ∈ str_cols, ∀ c' ∈ Lint, c ≠ c' := by
    intro c hc c' hc' heq
    exact hnotin c hc (heq ▸ (List.mem_filter.1 hc').1)
  set r1 := strCast cols r with hr1
  set r2 := intCast cols r1 with hr2
  have hlen1 : r1.length = r.length := by
    rw [hr1, strCast_eq_foldSet]
    exact foldSet_length _ _ _ _
  have hlen2 : r2.length = r1.length := by
    rw [hr2, intCast_eq_foldSet]
    exact foldSet_length _ _ _ _
  have hstr2 : strCast cols r2 = r2 := by
    rw [strCast_eq_foldSet]
    apply foldSet_fix
    intro c hc hlt
    have hframe : cell r2 (colIdx cols c) = cell r1 (colIdx cols c) := by
      rw [hr2, intCast_eq_foldSet, ← hLint]
      apply foldSet_cell_frame
      intro c' hc' hcontra
      exact hdisj c hc c' hc' (colIdx_inj (hstr c hc) (hintmem c' hc')
        hcontra.symm)
    have hhit : cell r1 (colIdx cols c) = .str (pyStr (cell r (colIdx cols c)))
        := by
      rw [hr1, strCast_eq_foldSet]
      exact foldSet_cell_hit _ cols str_cols (by decide) hstr hc r
        (by rw [← hlen1, ← hlen2]; exact hlt)
    rw [hframe, hhit]
    rfl
  have hint2 : intCast cols r2 = r2 := by
    rw [intCast_eq_foldSet, ← hLint]
    apply foldSet_fix
    intro c hc hlt
    have hhit : cell r2 (colIdx cols c)
        = .int (toIntCoerce (cell r1 (colIdx cols c))) := by
      rw [hr2, intCast_eq_foldSet, ← hLint]
      exact foldSet_cell_hit _ cols Lint hintnd hintmem hc r1
        (by rw [← hlen2]; exact hlt)
    rw [hhit]
    rfl
  calc intCast cols (strCast cols r2) = intCast cols r2 := by rw [hstr2]
    _ = r2 := hint2

/-- **C9.** The type-coercion stage is idempotent: whenever
`convert_data_types` succeeds (the eight identifier columns exist), running
it a second time on its result returns that result unchanged. -/
theorem C9_convert_idempotent (d d' : DF)
    (h : convert_data_types d = .ok d') :
    convert_data_types d' = .ok d' := by
  by_cases hg : (str_cols.all (fun c => d.cols.contains c)) = true
  · rw [convert_data_types, if_pos hg] at h
    cases h
    rw [convert_data_types, if_pos hg]
    have hmap : List.map (fun r => intCast d.cols (strCast d.cols r))
        (List.map (fun r => intCast d.cols (strCast d.cols r)) d.rows)
        = List.map (fun r => intCast d.cols (strCast d.cols r)) d.rows := by
      rw [List.map_map]
      apply List.map_congr_left
      intro r _
      exact convert_row_idempotent d.cols
        (fun c hc => by simpa using List.all_eq_true.1 hg c hc) r
    rw [hmap]
  · rw [convert_data_types, if_neg hg] at h
    simp at h

/-- Witness for C9 on a concrete dataframe (string ids, one numeric and
one unparseable count value). -/
theorem C9_convert_idempotent_witness :
    convert_data_types
        ⟨inputCols,
         [mkInRow (.int 1) (.str "7") (.str "abc") (.float ⟨5, 2⟩) (.int 3)]⟩
      = .ok ⟨inputCols,
         [mkInRow (.int 1) (.int 7) (.int 0) (.int 2) (.int 3)]⟩ ∧
    convert_data_types
        ⟨inputCols,
         [mkInRow (.int 1) (.int 7) (.int 0) (.int 2) (.int 3)]⟩
      = .ok ⟨inputCols,
         [mkInRow (.int 1) (.int 7) (.int 0) (.int 2) (.int 3)]⟩ :=
  ⟨by decide,
   C9_convert_idempotent
     ⟨inputCols,
      [mkInRow (.int 1) (.str "7") (.str "abc") (.float ⟨5, 2⟩) (.int 3)]⟩
     _ (by decide)⟩

/-! ### Claim C10: the order validator -/

theorem chainLeB_of_pairwise {f : Row → Value} :
    ∀ {l : List Row},
      l.Pairwise (fun a b => vleB (f a) (f b) = true) →
      chainLeB (l.map f) = true
  | [], _ => rfl
  | [_], _ => rfl
  | a :: b :: l, h => by
      rw [List.pairwise_cons] at h
      have hab := h.1 b (List.mem_cons_self ..)
      have hrest := chainLeB_of_pairwise (f := f) h.2
      simp only [List.map, chainLeB] at hrest ⊢
      rw [hab, hrest]
      rfl

/-- **C10.** In the pipeline's context (identifier keys are strings,
`ms_first_response` is an integer column, hence free of missing values),
the order validator reports zero non-monotonic `(user_id, problem_id)`
groups — the diagnostic can never fire, because monotonicity is checked
after sorting by `(user_id, problem_id, ms_first_response)` — and it
returns the input rows re-ordered by that sort key with every value
unchanged (a permutation of the input rows, same columns). -/
theorem C10_order_validator (d : DF)
    (hu : "user_id" ∈ d.cols) (hp : "problem_id" ∈ d.cols)
    (hm : "ms_first_response" ∈ d.cols)
    (hus : ∀ r ∈ d.rows, ∃ s, colv d "user_id" r = .str s)
    (hps : ∀ r ∈ d.rows, ∃ s, colv d "problem_id" r = .str s)
    (hmi : ∀ r ∈ d.rows, ∃ n : Int, colv d "ms_first_response" r = .int n) :
    ∃ d', check_sequential_order d = .ok (0, d') ∧ d'.cols = d.cols ∧
      d'.rows.Perm d.rows ∧
      d'.rows.Sorted (rowLe (colIdx d.cols "user_id")
        (colIdx d.cols "problem_id") (colIdx d.cols "ms_first_response")) := by
  set iu := colIdx d.cols "user_id" with hiu
  set ip := colIdx d.cols "problem_id" with hip
  set im := colIdx d.cols "ms_first_response" with him
  set sorted := List.insertionSort (rowLe iu ip im) d.rows with hsorted
  have hperm : sorted.Perm d.rows := List.perm_insertionSort _ _
  have hsort : sorted.Sorted (rowLe iu ip im) :=
    List.sorted_insertionSort _ _
  have hissues : sequential_issues d.cols sorted = 0 := by
    rw [sequential_issues, List.countP_eq_zero]
    intro k hk
    have hmemd : ∀ r ∈ sorted, r ∈ d.rows := fun r hr => hperm.mem_iff.1 hr
    have hmono : monoInc ((sorted.filter
        (fun r => keyEqB (keyOf iu ip r) k)).map (fun r => cell r im))
        = true := by
      rw [monoInc, Bool.and_eq_true]
      constructor
      · rw [List.all_eq_true]
        intro v hv
        obtain ⟨r, hr, rfl⟩ := List.mem_map.1 hv
        obtain ⟨n, hn⟩ := hmi r (hmemd r (List.mem_of_mem_filter hr))
        rw [show cell r im = colv d "ms_first_response" r from rfl, hn]
        rfl
      · apply chainLeB_of_pairwise
        have hpwf : (sorted.filter (fun r => keyEqB (keyOf iu ip r) k)).Pairwise
            (rowLe iu ip im) := List.Pairwise.filter _ hsort
        apply List.Pairwise.imp_of_mem ?_ hpwf
        intro a b ha hb hab
        have hka := (List.mem_filter.1 ha).2
        have hkb := (List.mem_filter.1 hb).2
        rw [keyEqB, Bool.and_eq_true] at hka hkb
        simp only [keyOf] at hka hkb
        have huab : vKey (cell a iu) = vKey (cell b iu) := by
          rw [vKey_eq_of_valueEq hka.1, vKey_eq_of_valueEq hkb.1]
        have hpab : vKey (cell a ip) = vKey (cell b ip) := by
          rw [vKey_eq_of_valueEq hka.2, vKey_eq_of_valueEq hkb.2]
        apply vleB_of_le
        rw [rowLe, rowLeB_iff, rowKey_le_iff] at hab
        rcases hab with h | ⟨_, h | ⟨_, h⟩⟩
        · rw [huab] at h
          exact absurd h (lt_irrefl _)
        · rw [hpab] at h
          exact absurd h (lt_irrefl _)
        · exact h
    simp [hmono]
  have hrun : check_sequential_order d
      = .ok (sequential_issues d.cols sorted, ⟨d.cols, sorted⟩) := by
    rw [check_sequential_order, if_pos ⟨hu, hp, hm⟩]
  refine ⟨⟨d.cols, sorted⟩, ?_, rfl, hperm, hsort⟩
  rw [hrun, hissues]

/-- Witness for C10: two rows in reverse key order, re-sorted with zero
reported issues. -/
theorem C10_order_validator_witness :
    ∃ d', check_sequential_order
        ⟨["user_id", "problem_id", "ms_first_response"],
         [[.str "b", .str "p", .int 2], [.str "a", .str "p", .int 1]]⟩
      = .ok (0, d') ∧
      d'.cols = ["user_id", "problem_id", "ms_first_response"] ∧
      d'.rows.Perm [[.str "b", .str "p", .int 2], [.str "a", .str "p", .int 1]] ∧
      d'.rows.Sorted (rowLe
        (colIdx ["user_id", "problem_id", "ms_first_response"] "user_id")
        (colIdx ["user_id", "problem_id", "ms_first_response"] "problem_id")
        (colIdx ["user_id", "problem_id", "ms_first_response"]
          "ms_first_response")) :=
  C10_order_validator
    ⟨["user_id", "problem_id", "ms_first_response"],
     [[.str "b", .str "p", .int 2], [.str "a", .str "p", .int 1]]⟩
    (by decide) (by decide) (by decide)
    (fun r hr => by
      rcases List.mem_cons.1 hr with rfl | hr'
      · exact ⟨"b", rfl⟩
      · rcases List.mem_singleton.1 hr' with rfl
        exact ⟨"a", rfl⟩)
    (fun r hr => by
      rcases List.mem_cons.1 hr with rfl | hr'
      · exact ⟨"p", rfl⟩
      · rcases List.mem_singleton.1 hr' with rfl
        exact ⟨"p", rfl⟩)
    (fun r hr => by
      rcases List.mem_cons.1 hr with rfl | hr'
      · exact ⟨2, rfl⟩
      · rcases List.mem_singleton.1 hr' with rfl
        exact ⟨1, rfl⟩)

/-! ### Numeric auxiliary lemmas for the pipeline invariants -/

theorem truncQ_mono {q1 q2 : ℚ} (h : q1 ≤ q2) : truncQ q1 ≤ truncQ q2 := by
  rw [truncQ, truncQ]
  rcases le_or_lt 0 q1 with h1 | h1 <;> rcases le_or_lt 0 q2 with h2 | h2
  · rw [if_pos h1, if_pos h2]
    exact Int.floor_le_floor h
  · exact absurd (lt_of_le_of_lt (le_trans h1 h) h2) (lt_irrefl _)
  · rw [if_neg (not_le.2 h1), if_pos h2]
    calc ⌈q1⌉ ≤ (0 : ℤ) := Int.ceil_le.2 (by exact_mod_cast le_of_lt h1)
      _ ≤ ⌊q2⌋ := Int.le_floor.2 (by exact_mod_cast h2)
  · rw [if_neg (not_le.2 h1), if_neg (not_le.2 h2)]
    exact Int.ceil_le_ceil h

theorem truncQ_intCast (n : Int) : truncQ (n : ℚ) = n := by
  rw [truncQ]
  rcases le_or_lt 0 (n : ℚ) with h | h
  · rw [if_pos h, Int.floor_intCast]
  · rw [if_neg (not_le.2 h), Int.ceil_intCast]

theorem toIntCoerce_num {v : Value} {q : ℚ} (h : toQ v = some q) :
    toIntCoerce v = truncQ q := by
  cases v with
  | int n =>
      simp only [toQ, Option.some_inj] at h
      rw [toIntCoerce, ← h]
      simp [fillna0, toNumericCoerce, Value.isMissing, truncQ_intCast]
  | float f =>
      simp only [toQ, Option.some_inj] at h
      rw [toIntCoerce, ← h]
      simp [fillna0, toNumericCoerce, Value.isMissing, Frac.trunc_eq]
  | str s => simp [toQ] at h
  | missing => simp [toQ] at h

theorem frac_lt_false {f g : Frac} (h : f.lt g = false) : g.val ≤ f.val :=
  not_lt.1 fun hc => absurd ((Frac.lt_iff f g).2 hc) (by simp [h])

theorem pyGt_num_false {a b : Value} {qa qb : ℚ} (ha : toQ a = some qa)
    (hb : toQ b = some qb) (h : pyGt a b = .ok false) : qa ≤ qb := by
  cases a with
  | str s => simp [toQ] at ha
  | missing => simp [toQ] at ha
  | int m =>
      simp only [toQ, Option.some_inj] at ha
      cases b with
      | str s => simp [toQ] at hb
      | missing => simp [toQ] at hb
      | int n =>
          simp only [toQ, Option.some_inj] at hb
          rw [pyGt] at h
          simp only [Except.ok.injEq, decide_eq_false_iff_not, not_lt] at h
          rw [← ha, ← hb]
          exact_mod_cast h
      | float g =>
          simp only [toQ, Option.some_inj] at hb
          rw [pyGt] at h
          simp only [Except.ok.injEq] at h
          have hle := frac_lt_false h
          rw [Frac.ofInt_val] at hle
          rw [← ha, ← hb]
          exact hle
  | float f =>
      simp only [toQ, Option.some_inj] at ha
      cases b with
      | str s => simp [toQ] at hb
      | missing => simp [toQ] at hb
      | int n =>
          simp only [toQ, Option.some_inj] at hb
          rw [pyGt] at h
          simp only [Except.ok.injEq] at h
          have hle := frac_lt_false h
          rw [Frac.ofInt_val] at hle
          rw [← ha, ← hb]
          exact hle
      | float g =>
          simp only [toQ, Option.some_inj] at hb
          rw [pyGt] at h
          simp only [Except.ok.injEq] at h
          have hle := frac_lt_false h
          rw [← ha, ← hb]
          exact hle

/-- A successful `hintIndepVal` on non-missing cells forces both operands
numeric and the result a float. -/
theorem hintIndepVal_ok_inv {hc ht : Value} {v : Value}
    (h : hintIndepVal hc ht = .ok v)
    (hhc : hc.isMissing = false) (hht : ht.isMissing = false) :
    (∃ qc, toQ hc = some qc) ∧ (∃ qt, toQ ht = some qt) ∧
      ∃ f : Frac, v = .float f := by
  cases hc with
  | missing => simp [Value.isMissing] at hhc
  | str s =>
      cases ht <;>
        simp [hintIndepVal, pyDiv, bind, Except.bind, valueEq, toF,
          Frac.ofInt] at h
  | int m =>
      cases ht with
      | missing => simp [Value.isMissing] at hht
      | str s =>
          rw [hintIndepVal, if_neg (by simp [valueEq])] at h
          simp [pyDiv, bind, Except.bind] at h
      | int n =>
          refine ⟨⟨(m : ℚ), rfl⟩, ⟨(n : ℚ), rfl⟩, ?_⟩
          obtain ⟨q1, q2, h1, h2⟩ :
              ∃ q1 q2, toQ (Value.int m) = some q1 ∧
                toQ (Value.int n) = some q2 := ⟨_, _, rfl, rfl⟩
          obtain ⟨f, hf, _⟩ := hintIndepVal_num h1 h2
          rw [hf] at h
          exact ⟨f, by cases h; rfl⟩
      | float g =>
          refine ⟨⟨(m : ℚ), rfl⟩, ⟨g.val, rfl⟩, ?_⟩
          obtain ⟨f, hf, _⟩ := hintIndepVal_num
            (show toQ (Value.int m) = some (m : ℚ) from rfl)
            (show toQ (Value.float g) = some g.val from rfl)
          rw [hf] at h
          exact ⟨f, by cases h; rfl⟩
  | float fc =>
      cases ht with
      | missing => simp [Value.isMissing] at hht
      | str s =>
          rw [hintIndepVal, if_neg (by simp [valueEq])] at h
          simp [pyDiv, bind, Except.bind] at h
      | int n =>
          refine ⟨⟨fc.val, rfl⟩, ⟨(n : ℚ), rfl⟩, ?_⟩
          obtain ⟨f, hf, _⟩ := hintIndepVal_num
            (show toQ (Value.float fc) = some fc.val from rfl)
            (show toQ (Value.int n) = some (n : ℚ) from rfl)
          rw [hf] at h
          exact ⟨f, by cases h; rfl⟩
      | float g =>
          refine ⟨⟨fc.val, rfl⟩, ⟨g.val, rfl⟩, ?_⟩
          obtain ⟨f, hf, _⟩ := hintIndepVal_num
            (show toQ (Value.float fc) = some fc.val from rfl)
            (show toQ (Value.float g) = some g.val from rfl)
          rw [hf] at h
          exact ⟨f, by cases h; rfl⟩

/-! ### Decomposition of a successful pipeline run -/

theorem process_data_ok_chain {df out : DF} (h : process_data df = .ok out) :
    ∃ d1 d2 d4 d5 k d6,
      remove_missing_values (remove_duplicates df) critical_columns
        = .ok d1 ∧
      fix_logic_errors d1 = .ok d2 ∧
      add_hint_independence (normalize_response_time d2 3600) = .ok d4 ∧
      convert_data_types d4 = .ok d5 ∧
      check_sequential_order d5 = .ok (k, d6) ∧
      selectCols d6 keep_cols = .ok out := by
  rw [process_data] at h
  cases h1 : remove_missing_values (remove_duplicates df) critical_columns with
  | error e => rw [h1] at h; simp [bind, Except.bind] at h
  | ok d1 =>
      rw [h1] at h
      simp only [bind, Except.bind] at h
      cases h2 : fix_logic_errors d1 with
      | error e => rw [h2] at h; simp at h
      | ok d2 =>
          rw [h2] at h
          simp only at h
          cases h4 : add_hint_independence (normalize_response_time d2 3600)
            with
          | error e => rw [h4] at h; simp at h
          | ok d4 =>
              rw [h4] at h
              simp only at h
              cases h5 : convert_data_types d4 with
              | error e => rw [h5] at h; simp at h
              | ok d5 =>
                  rw [h5] at h
                  simp only at h
                  cases h6 : check_sequential_order d5 with
                  | error e => rw [h6] at h; simp at h
                  | ok p =>
                      obtain ⟨k, d6⟩ := p
                      rw [h6] at h
                      simp only at h
                      exact ⟨d1, d2, d4, d5, k, d6, rfl, h2, h4, h5, h6, h⟩

/-! ### Stage specifications for the pipeline invariants -/

theorem mapE_ok_getD {f : Row → Except String Row} {l l' : List Row}
    (h : mapE f l = .ok l') :
    l'.length = l.length ∧
    ∀ i, i < l.length → f (l.getD i []) = .ok (l'.getD i []) := by
  have hf := mapE_ok_forall₂ h
  exact ⟨(forall₂_length hf).symm, fun i hi => forall₂_getD hf [] [] i hi⟩

theorem map_getD_row {f : Row → Row} {l : List Row} {i : Nat}
    (h : i < l.length) : (l.map f).getD i [] = f (l.getD i []) := by
  rw [List.getD_eq_getElem _ _ (by simpa using h), List.getElem_map,
    List.getD_eq_getElem _ _ h]

theorem remove_missing_spec {d : DF} {critical : List String} {d1 : DF}
    (hal : Aligned d) (h : remove_missing_values d critical = .ok d1) :
    (∀ c ∈ critical, c ∈ d.cols) ∧ d1.cols = d.cols ∧ Aligned d1 ∧
    ∀ i, i < d1.rows.length → ∃ r ∈ d.rows,
      (∀ c ∈ critical, (colv d c r).isMissing = false) ∧
      ("correct" ∉ d.cols → d1.rows.getD i [] = r) ∧
      ("correct" ∈ d.cols →
        (∃ n : Int, castIntStrict (fillna0 (colv d "correct" r)) = .ok n ∧
          colv d1 "correct" (d1.rows.getD i []) = .int n) ∧
        ∀ c, c ∈ d.cols → c ≠ "correct" →
          colv d1 c (d1.rows.getD i []) = colv d c r) := by
  have hunfold : remove_missing_values d critical =
      if critical.all (fun c => d.cols.contains c) then
        (if "correct" ∈ d.cols then
          setColE ⟨d.cols, d.rows.filter (fun r =>
            critical.all (fun c => !(cell r (colIdx d.cols c)).isMissing))⟩
            "correct" (fun r => do
              let n ← castIntStrict (fillna0 (cell r (colIdx d.cols "correct")))
              pure (.int n))
        else .ok ⟨d.cols, d.rows.filter (fun r =>
          critical.all (fun c => !(cell r (colIdx d.cols c)).isMissing))⟩)
      else .error "KeyError" := rfl
  rw [hunfold] at h
  by_cases hg : (critical.all (fun c => d.cols.contains c)) = true
  · rw [if_pos hg] at h
    have hcrit : ∀ c ∈ critical, c ∈ d.cols := fun c hc => by
      simpa using List.all_eq_true.1 hg c hc
    set kept := d.rows.filter (fun r =>
      critical.all (fun c => !(cell r (colIdx d.cols c)).isMissing))
      with hkept
    have halkept : Aligned ⟨d.cols, kept⟩ := fun r hr =>
      hal r (List.mem_of_mem_filter hr)
    have hkeptfacts : ∀ r ∈ kept, r ∈ d.rows ∧
        ∀ c ∈ critical, (colv d c r).isMissing = false := by
      intro r hr
      have h1 := List.mem_filter.1 hr
      refine ⟨h1.1, fun c hc => ?_⟩
      have := List.all_eq_true.1 h1.2 c hc
      simpa [colv] using this
    by_cases hcor : "correct" ∈ d.cols
    · rw [if_pos hcor] at h
      have spec := setColE_ok_spec halkept h
      have hcols : d1.cols = d.cols := spec.1.1 hcor
      have hlen : d1.rows.length = kept.length := spec.2.1
      refine ⟨hcrit, hcols, spec.2.2.1, ?_⟩
      intro i hi
      have hik : i < kept.length := by rw [← hlen]; exact hi
      set r := kept.getD i [] with hr
      have hrmem : r ∈ kept := getD_mem_row hik
      obtain ⟨hrd, hrcrit⟩ := hkeptfacts r hrmem
      refine ⟨r, hrd, hrcrit, fun hnc => absurd hcor hnc, fun _ => ?_⟩
      have hper := spec.2.2.2 i hik
      constructor
      · obtain ⟨v, hv⟩ := hper.1
        cases hcast : castIntStrict (fillna0 (cell r (colIdx d.cols "correct")))
          with
        | error e =>
            rw [show (do
              let n ← castIntStrict (fillna0 (cell r (colIdx d.cols "correct")))
              pure (Value.int n) : Except String Value)
              = .error e from by rw [hcast]; rfl] at hv
            simp at hv
        | ok n =>
            refine ⟨n, hcast, ?_⟩
            have hcv : colv d1 "correct" (d1.rows.getD i []) = .int n := by
              apply hper.2.1
              rw [show (do
                let n ← castIntStrict
                  (fillna0 (cell r (colIdx d.cols "correct")))
                pure (Value.int n) : Except String Value)
                = .ok (.int n) from by rw [hcast]; rfl]
            exact hcv
      · intro c hcmem hcne
        exact hper.2.2 c hcmem hcne
    · rw [if_neg hcor] at h
      cases h
      refine ⟨hcrit, rfl, halkept, ?_⟩
      intro i hi
      set r := kept.getD i [] with hr
      have hrmem : r ∈ kept := getD_mem_row hi
      obtain ⟨hrd, hrcrit⟩ := hkeptfacts r hrmem
      exact ⟨r, hrd, hrcrit, fun _ => rfl, fun hc => absurd hc hcor⟩
  · rw [if_neg hg] at h
    simp at h

theorem fix_logic_spec {d d2 : DF} (hal : Aligned d)
    (h : fix_logic_errors d = .ok d2) :
    ("hint_count" ∈ d.cols ∧ "hint_total" ∈ d.cols) ∧
    d2.cols = d.cols ∧ Aligned d2 ∧ d2.rows.length = d.rows.length ∧
    ∀ i, i < d.rows.length →
      (∃ g, pyGt (colv d "hint_count" (d.rows.getD i []))
          (colv d "hint_total" (d.rows.getD i [])) = .ok g ∧
        (g = false → colv d2 "hint_count" (d2.rows.getD i [])
            = colv d "hint_count" (d.rows.getD i [])) ∧
        (g = true → colv d2 "hint_count" (d2.rows.getD i [])
            = colv d "hint_total" (d.rows.getD i []))) ∧
      colv d2 "hint_total" (d2.rows.getD i [])
        = colv d "hint_total" (d.rows.getD i []) ∧
      ("correct" ∈ d.cols → ∀ n : Int,
        colv d "correct" (d.rows.getD i []) = .int n →
        colv d2 "correct" (d2.rows.getD i [])
          = .int (if n = 0 then 0 else 1)) ∧
      (∀ c ∈ d.cols, c ≠ "hint_count" → c ≠ "correct" →
        colv d2 c (d2.rows.getD i []) = colv d c (d.rows.getD i [])) := by
  have hunfold : fix_logic_errors d =
      if "hint_count" ∈ d.cols ∧ "hint_total" ∈ d.cols then
        (mapE (fun r => do
          let g ← pyGt (cell r (colIdx d.cols "hint_count"))
            (cell r (colIdx d.cols "hint_total"))
          pure (if g then
            r.set (colIdx d.cols "hint_count")
              (cell r (colIdx d.cols "hint_total"))
          else r)) d.rows).bind (fun rows1 =>
          if "correct" ∈ d.cols then
            pure ⟨d.cols, rows1.map (fun r =>
              if isin01 (cell r (colIdx d.cols "correct")) then r
              else r.set (colIdx d.cols "correct")
                (.int (if truthy (cell r (colIdx d.cols "correct"))
                  then 1 else 0)))⟩
          else pure ⟨d.cols, rows1⟩)
      else .error "KeyError" := rfl
  rw [hunfold] at h
  by_cases hg : "hint_count" ∈ d.cols ∧ "hint_total" ∈ d.cols
  swap
  · rw [if_neg hg] at h
    simp at h
  rw [if_pos hg] at h
  cases hm : mapE (fun r => do
      let g ← pyGt (cell r (colIdx d.cols "hint_count"))
        (cell r (colIdx d.cols "hint_total"))
      pure (if g then
        r.set (colIdx d.cols "hint_count")
          (cell r (colIdx d.cols "hint_total"))
      else r)) d.rows with
  | error e => rw [hm] at h; simp [Except.bind] at h
  | ok rows1 =>
      rw [hm] at h
      simp only [Except.bind] at h
      obtain ⟨hlen1, hstep⟩ := mapE_ok_getD hm
      have hihc : colIdx d.cols "hint_count" < d.cols.length :=
        colIdx_lt_length hg.1
      have hne_ht_hc : colIdx d.cols "hint_total" ≠ colIdx d.cols "hint_count"
        := fun hcontra => by
          have := colIdx_inj hg.2 hg.1 hcontra
          simp at this
      have hrow1 : ∀ i, i < d.rows.length →
          ∃ g, pyGt (cell (d.rows.getD i []) (colIdx d.cols "hint_count"))
            (cell (d.rows.getD i []) (colIdx d.cols "hint_total")) = .ok g ∧
            rows1.getD i [] = (if g then
              (d.rows.getD i []).set (colIdx d.cols "hint_count")
                (cell (d.rows.getD i []) (colIdx d.cols "hint_total"))
            else d.rows.getD i []) := by
        intro i hi
        have := hstep i hi
        cases hpg : pyGt (cell (d.rows.getD i []) (colIdx d.cols "hint_count"))
            (cell (d.rows.getD i []) (colIdx d.cols "hint_total")) with
        | error e =>
            rw [show (do
              let g ← pyGt (cell (d.rows.getD i []) (colIdx d.cols "hint_count"))
                (cell (d.rows.getD i []) (colIdx d.cols "hint_total"))
              pure (if g then
                (d.rows.getD i []).set (colIdx d.cols "hint_count")
                  (cell (d.rows.getD i []) (colIdx d.cols "hint_total"))
              else d.rows.getD i []) : Except String Row)
              = .error e from by rw [hpg]; rfl] at this
            simp at this
        | ok g =>
            refine ⟨g, rfl, ?_⟩
            rw [show (do
              let g ← pyGt (cell (d.rows.getD i []) (colIdx d.cols "hint_count"))
                (cell (d.rows.getD i []) (colIdx d.cols "hint_total"))
              pure (if g then
                (d.rows.getD i []).set (colIdx d.cols "hint_count")
                  (cell (d.rows.getD i []) (colIdx d.cols "hint_total"))
              else d.rows.getD i []) : Except String Row)
              = .ok (if g then
                (d.rows.getD i []).set (colIdx d.cols "hint_count")
                  (cell (d.rows.getD i []) (colIdx d.cols "hint_total"))
              else d.rows.getD i []) from by rw [hpg]; rfl] at this
            exact (Except.ok.inj this).symm
      have hlen1row : ∀ i, i < d.rows.length →
          (rows1.getD i []).length = (d.rows.getD i []).length := by
        intro i hi
        obtain ⟨g, _, hr1⟩ := hrow1 i hi
        rw [hr1]
        split
        · exact length_set_row ..
        · rfl
      have halrows1 : ∀ i, i < d.rows.length →
          (rows1.getD i []).length = d.cols.length := by
        intro i hi
        rw [hlen1row i hi]
        exact hal _ (getD_mem_row hi)
      by_cases hcor : "correct" ∈ d.cols
      · rw [if_pos hcor] at h
        cases h
        have hic : colIdx d.cols "correct" < d.cols.length :=
          colIdx_lt_length hcor
        have hne_hc_c : colIdx d.cols "hint_count" ≠ colIdx d.cols "correct"
          := fun hcontra => by
            have := colIdx_inj hg.1 hcor hcontra
            simp at this
        have hne_ht_c : colIdx d.cols "hint_total" ≠ colIdx d.cols "correct"
          := fun hcontra => by
            have := colIdx_inj hg.2 hcor hcontra
            simp at this
        refine ⟨hg, rfl, ?_, ?_, ?_⟩
        · intro r hr
          simp only [List.mem_map] at hr
          obtain ⟨r1, hr1, rfl⟩ := hr
          obtain ⟨j, hj, rfl⟩ := mem_iff_getD.1 hr1
          have hjd : j < d.rows.length := by rw [← hlen1]; exact hj
          split
          · exact halrows1 j hjd
          · rw [length_set_row]
            exact halrows1 j hjd
        · simp only [List.length_map]
          exact hlen1
        · intro i hi
          have hi1 : i < rows1.length := by rw [hlen1]; exact hi
          obtain ⟨g, hpg, hr1⟩ := hrow1 i hi
          have hd2row : (List.map (fun r =>
              if isin01 (cell r (colIdx d.cols "correct")) then r
              else r.set (colIdx d.cols "correct")
                (.int (if truthy (cell r (colIdx d.cols "correct"))
                  then 1 else 0))) rows1).getD i []
              = (if isin01 (cell (rows1.getD i []) (colIdx d.cols "correct"))
                then rows1.getD i []
                else (rows1.getD i []).set (colIdx d.cols "correct")
                  (.int (if truthy (cell (rows1.getD i [])
                    (colIdx d.cols "correct")) then 1 else 0))) :=
            map_getD_row hi1
          -- cells of the intermediate row
          have hcell_ic : cell (rows1.getD i []) (colIdx d.cols "correct")
              = cell (d.rows.getD i []) (colIdx d.cols "correct") := by
            rw [hr1]
            split
            · exact cell_set_ne _ (Ne.symm hne_hc_c) _
            · rfl
          have hcell_iht : cell (rows1.getD i []) (colIdx d.cols "hint_total")
              = cell (d.rows.getD i []) (colIdx d.cols "hint_total") := by
            rw [hr1]
            split
            · exact cell_set_ne _ hne_ht_hc _
            · rfl
          have hcell_ihc : cell (rows1.getD i []) (colIdx d.cols "hint_count")
              = (if g then cell (d.rows.getD i [])
                  (colIdx d.cols "hint_total")
                else cell (d.rows.getD i []) (colIdx d.cols "hint_count")) := by
            rw [hr1]
            by_cases hgv : g = true
            · rw [if_pos hgv, if_pos hgv]
              exact cell_set_self _ _ (by
                rw [hal _ (getD_mem_row hi)]
                exact hihc) _
            · rw [if_neg hgv, if_neg hgv]
          -- cells of the final row, through the correct-fix map
          have hfinal : ∀ j, j ≠ colIdx d.cols "correct" →
              cell ((List.map (fun r =>
                if isin01 (cell r (colIdx d.cols "correct")) then r
                else r.set (colIdx d.cols "correct")
                  (.int (if truthy (cell r (colIdx d.cols "correct"))
                    then 1 else 0))) rows1).getD i []) j
              = cell (rows1.getD i []) j := by
            intro j hjne
            rw [hd2row]
            split
            · rfl
            · exact cell_set_ne _ hjne _
          refine ⟨⟨g, hpg, ?_, ?_⟩, ?_, ?_, ?_⟩
          · intro hgf
            rw [colv, colv, hfinal _ (Ne.symm (Ne.symm hne_hc_c)), hcell_ihc,
              hgf]
            rfl
          · intro hgt
            rw [colv, colv, hfinal _ hne_hc_c, hcell_ihc, hgt]
            rfl
          · rw [colv, colv, hfinal _ hne_ht_c, hcell_iht]
          · intro _ n hn
            rw [colv] at hn ⊢
            rw [hd2row]
            rw [hcell_ic, hn]
            by_cases hn01 : isin01 (Value.int n) = true
            · rw [if_pos hn01]
              rw [hcell_ic, hn]
              have : n = 0 ∨ n = 1 := by
                rw [isin01] at hn01
                simp [valueEq] at hn01
                exact hn01
              rcases this with rfl | rfl <;> rfl
            · rw [if_neg hn01]
              have hnne : ¬ (n = 0 ∨ n = 1) := by
                intro hcontra
                apply hn01
                rw [isin01]
                simp [valueEq]
                exact hcontra
            
              rw [cell_set_self _ _ (by
                rw [hlen1row i hi, hal _ (getD_mem_row hi)]
                exact hic) _]
              have hn0 : ¬ n = 0 := fun hc => hnne (Or.inl hc)
              simp [truthy, hn0]
          · intro c hcmem hchc hccor
            have hnec : colIdx d.cols c ≠ colIdx d.cols "correct" :=
              fun hcontra => hccor (colIdx_inj hcmem hcor hcontra)
            have hnehc : colIdx d.cols c ≠ colIdx d.cols "hint_count" :=
              fun hcontra => hchc (colIdx_inj hcmem hg.1 hcontra)
            rw [colv, colv, hfinal _ hnec]
            rw [hr1]
            split
            · exact cell_set_ne _ hnehc _
            · rfl
      · rw [if_neg hcor] at h
        cases h
        refine ⟨hg, rfl, ?_, hlen1, ?_⟩
        · intro r hr
          obtain ⟨j, hj, rfl⟩ := mem_iff_getD.1 hr
          have hjd : j < d.rows.length := by rw [← hlen1]; exact hj
          exact halrows1 j hjd
        · intro i hi
          obtain ⟨g, hpg, hr1⟩ := hrow1 i hi
          have hcell_iht : cell (rows1.getD i []) (colIdx d.cols "hint_total")
              = cell (d.rows.getD i []) (colIdx d.cols "hint_total") := by
            rw [hr1]
            split
            · exact cell_set_ne _ hne_ht_hc _
            · rfl
          have hcell_ihc : cell (rows1.getD i []) (colIdx d.cols "hint_count")
              = (if g then cell (d.rows.getD i [])
                  (colIdx d.cols "hint_total")
                else cell (d.rows.getD i []) (colIdx d.cols "hint_count")) := by
            rw [hr1]
            by_cases hgv : g = true
            · rw [if_pos hgv, if_pos hgv]
              exact cell_set_self _ _ (by
                rw [hal _ (getD_mem_row hi)]
                exact hihc) _
            · rw [if_neg hgv, if_neg hgv]
          refine ⟨⟨g, hpg, ?_, ?_⟩, ?_, fun hc => absurd hc hcor, ?_⟩
          · intro hgf
            rw [colv, colv, hcell_ihc, hgf]
            rfl
          · intro hgt
            rw [colv, colv, hcell_ihc, hgt]
            rfl
          · rw [colv, colv, hcell_iht]
          · intro c hcmem hchc _
            have hnehc : colIdx d.cols c ≠ colIdx d.cols "hint_count" :=
              fun hcontra => hchc (colIdx_inj hcmem hg.1 hcontra)
            rw [colv, colv, hr1]
            split
            · exact cell_set_ne _ hnehc _
            · rfl

theorem normalize_spec {d : DF} (hal : Aligned d)
    (hms : "ms_first_response" ∈ d.cols) (M : Int) :
    (normalize_response_time d M).cols = d.cols ∧
    Aligned (normalize_response_time d M) ∧
    (normalize_response_time d M).rows.length = d.rows.length ∧
    ∀ i, i < d.rows.length →
      (colv (normalize_response_time d M) "ms_first_response"
        ((normalize_response_time d M).rows.getD i [])
        = clampHi (fillna0 (toNumericCoerce
            (colv d "ms_first_response" (d.rows.getD i [])))) M) ∧
      ∀ c ∈ d.cols, c ≠ "ms_first_response" →
        colv (normalize_response_time d M) c
          ((normalize_response_time d M).rows.getD i [])
          = colv d c (d.rows.getD i []) := by
  have hunfold : normalize_response_time d M =
      if "ms_first_response" ∈ d.cols then
        ⟨d.cols, d.rows.map (fun r =>
          r.set (colIdx d.cols "ms_first_response")
            (clampHi (fillna0 (toNumericCoerce
              (cell r (colIdx d.cols "ms_first_response")))) M))⟩
      else d := rfl
  rw [hunfold, if_pos hms]
  have hidx : colIdx d.cols "ms_first_response" < d.cols.length :=
    colIdx_lt_length hms
  refine ⟨rfl, ?_, by simp, ?_⟩
  · intro r hr
    simp only [List.mem_map] at hr
    obtain ⟨r0, hr0, rfl⟩ := hr
    rw [length_set_row]
    exact hal r0 hr0
  · intro i hi
    have hmap : (d.rows.map (fun r =>
        r.set (colIdx d.cols "ms_first_response")
          (clampHi (fillna0 (toNumericCoerce
            (cell r (colIdx d.cols "ms_first_response")))) M))).getD i []
        = (d.rows.getD i []).set (colIdx d.cols "ms_first_response")
          (clampHi (fillna0 (toNumericCoerce
            (cell (d.rows.getD i []) (colIdx d.cols "ms_first_response")))) M)
        := map_getD_row hi
    constructor
    · rw [colv, colv, hmap, cell_set_self _ _ (by
        rw [hal _ (getD_mem_row hi)]
        exact hidx)]
    · intro c hcm hcne
      have hne : colIdx d.cols c ≠ colIdx d.cols "ms_first_response" :=
        fun hcontra => hcne (colIdx_inj hcm hms hcontra)
      rw [colv, colv, hmap, cell_set_ne _ hne _]

theorem add_spec {d d4 : DF} (hal : Aligned d)
    (h : add_hint_independence d = .ok d4) :
    ("hint_count" ∈ d.cols ∧ "hint_total" ∈ d.cols) ∧
    "hint_independence" ∈ d4.cols ∧
    (d4.cols = d.cols ∨ d4.cols = d.cols ++ ["hint_independence"]) ∧
    d4.rows.length = d.rows.length ∧ Aligned d4 ∧
    ∀ i, i < d.rows.length →
      (∃ v, hintIndepVal (colv d "hint_count" (d.rows.getD i []))
          (colv d "hint_total" (d.rows.getD i [])) = .ok v ∧
        colv d4 "hint_independence" (d4.rows.getD i []) = v) ∧
      ∀ c ∈ d.cols, c ≠ "hint_independence" →
        colv d4 c (d4.rows.getD i []) = colv d c (d.rows.getD i []) := by
  have hunfold : add_hint_independence d =
      if "hint_count" ∈ d.cols ∧ "hint_total" ∈ d.cols then
        setColE d "hint_independence" (fun r =>
          hintIndepVal (cell r (colIdx d.cols "hint_count"))
            (cell r (colIdx d.cols "hint_total")))
      else .error "KeyError" := rfl
  rw [hunfold] at h
  by_cases hg : "hint_count" ∈ d.cols ∧ "hint_total" ∈ d.cols
  swap
  · rw [if_neg hg] at h
    simp at h
  rw [if_pos hg] at h
  have spec := setColE_ok_spec hal h
  have hhicols : "hint_independence" ∈ d4.cols := by
    by_cases hmem : "hint_independence" ∈ d.cols
    · rw [spec.1.1 hmem]; exact hmem
    · rw [spec.1.2 hmem]; simp
  have hcols : d4.cols = d.cols ∨ d4.cols = d.cols ++ ["hint_independence"]
    := by
    by_cases hmem : "hint_independence" ∈ d.cols
    · exact Or.inl (spec.1.1 hmem)
    · exact Or.inr (spec.1.2 hmem)
  refine ⟨hg, hhicols, hcols, spec.2.1, spec.2.2.1, ?_⟩
  intro i hi
  have hper := spec.2.2.2 i hi
  refine ⟨?_, fun c hcm hcne => hper.2.2 c hcm hcne⟩
  obtain ⟨v, hv⟩ := hper.1
  exact ⟨v, hv, hper.2.1 v hv⟩

theorem convert_spec {d d5 : DF} (hal : Aligned d)
    (h : convert_data_types d = .ok d5) :
    (∀ c ∈ str_cols, c ∈ d.cols) ∧ d5.cols = d.cols ∧ Aligned d5 ∧
    d5.rows.length = d.rows.length ∧
    ∀ i, i < d.rows.length →
      (∀ c ∈ str_cols, colv d5 c (d5.rows.getD i [])
        = .str (pyStr (colv d c (d.rows.getD i [])))) ∧
      (∀ c ∈ int_cols, c ∈ d.cols → colv d5 c (d5.rows.getD i [])
        = .int (toIntCoerce (colv d c (d.rows.getD i [])))) ∧
      (∀ c ∈ d.cols, c ∉ str_cols → c ∉ int_cols →
        colv d5 c (d5.rows.getD i []) = colv d c (d.rows.getD i [])) := by
  by_cases hg : (str_cols.all (fun c => d.cols.contains c)) = true
  swap
  · rw [convert_data_types, if_neg hg] at h
    simp at h
  rw [convert_data_types, if_pos hg] at h
  cases h
  have hstr : ∀ c ∈ str_cols, c ∈ d.cols := fun c hc => by
    simpa using List.all_eq_true.1 hg c hc
  set Lint := int_cols.filter (fun c => d.cols.contains c) with hLint
  have hintnd : Lint.Nodup := List.Nodup.filter _ (by decide)
  have hintmem : ∀ c ∈ Lint, c ∈ d.cols := by
    intro c hc
    have := (List.mem_filter.1 hc).2
    simpa using this
  have hint_of : ∀ c ∈ int_cols, c ∈ d.cols → c ∈ Lint := by
    intro c hc hcd
    rw [hLint]
    refine List.mem_filter.2 ⟨hc, by simpa using hcd⟩
  have hnotin : ∀ c ∈ str_cols, c ∉ int_cols := by decide
  have hdisj : ∀ c ∈ str_cols, ∀ c' ∈ Lint, c ≠ c' := by
    intro c hc c' hc' heq
    exact hnotin c hc (heq ▸ (List.mem_filter.1 hc').1)
  refine ⟨hstr, rfl, ?_, by simp, ?_⟩
  · intro r hr
    simp only [List.mem_map] at hr
    obtain ⟨r0, hr0, rfl⟩ := hr
    rw [show (intCast d.cols (strCast d.cols r0)).length
        = (strCast d.cols r0).length from by
      rw [intCast_eq_foldSet]; exact foldSet_length _ _ _ _]
    rw [show (strCast d.cols r0).length = r0.length from by
      rw [strCast_eq_foldSet]; exact foldSet_length _ _ _ _]
    exact hal r0 hr0
  · intro i hi
    set r := d.rows.getD i [] with hr
    have hrlen : r.length = d.cols.length := hal _ (getD_mem_row hi)
    have hmap : ((d.rows.map (fun r => intCast d.cols (strCast d.cols r)))
        |>.getD i []) = intCast d.cols (strCast d.cols r) := map_getD_row hi
    have hstrlen : (strCast d.cols r).length = r.length := by
      rw [strCast_eq_foldSet]; exact foldSet_length _ _ _ _
    refine ⟨?_, ?_, ?_⟩
    · intro c hc
      have hidx : colIdx d.cols c < r.length := by
        rw [hrlen]; exact colIdx_lt_length (hstr c hc)
      rw [colv, colv, hmap, intCast_eq_foldSet, ← hLint,
        foldSet_cell_frame _ _ _ _ _ (fun c' hc' hcontra =>
          hdisj c hc c' hc' (colIdx_inj (hstr c hc) (hintmem c' hc')
            hcontra.symm)),
        strCast_eq_foldSet,
        foldSet_cell_hit _ _ _ (by decide) hstr hc r hidx]
    · intro c hc hcd
      have hcL := hint_of c hc hcd
      have hidx : colIdx d.cols c < (strCast d.cols r).length := by
        rw [hstrlen, hrlen]; exact colIdx_lt_length hcd
      rw [colv, colv, hmap, intCast_eq_foldSet, ← hLint,
        foldSet_cell_hit _ _ _ hintnd hintmem hcL _ hidx,
        strCast_eq_foldSet,
        foldSet_cell_frame _ _ _ _ _ (fun c' hc' hcontra =>
          hdisj c' hc' c hcL (colIdx_inj (hstr c' hc') hcd hcontra))]
    · intro c hcd hcs hci
      rw [colv, colv, hmap, intCast_eq_foldSet, ← hLint,
        foldSet_cell_frame _ _ _ _ _ (fun c' hc' hcontra =>
          hci (by
            rw [colIdx_inj hcd (hintmem c' hc') hcontra.symm]
            exact (List.mem_filter.1 hc').1)),
        strCast_eq_foldSet,
        foldSet_cell_frame _ _ _ _ _ (fun c' hc' hcontra =>
          hcs (by
            rw [colIdx_inj hcd (hstr c' hc') hcontra.symm]
            exact hc'))]

theorem check_spec {d : DF} {k : Nat} {d6 : DF}
    (h : check_sequential_order d = .ok (k, d6)) :
    ("user_id" ∈ d.cols ∧ "problem_id" ∈ d.cols ∧
      "ms_first_response" ∈ d.cols) ∧
    d6.cols = d.cols ∧ d6.rows.Perm d.rows ∧
    d6.rows.Sorted (rowLe (colIdx d.cols "user_id")
      (colIdx d.cols "problem_id") (colIdx d.cols "ms_first_response")) := by
  by_cases hg : "user_id" ∈ d.cols ∧ "problem_id" ∈ d.cols ∧
      "ms_first_response" ∈ d.cols
  swap
  · rw [check_sequential_order, if_neg hg] at h
    simp at h
  have hunfold : check_sequential_order d
      = .ok (sequential_issues d.cols (List.insertionSort
          (rowLe (colIdx d.cols "user_id") (colIdx d.cols "problem_id")
            (colIdx d.cols "ms_first_response")) d.rows),
        ⟨d.cols, List.insertionSort
          (rowLe (colIdx d.cols "user_id") (colIdx d.cols "problem_id")
            (colIdx d.cols "ms_first_response")) d.rows⟩) := by
    rw [check_sequential_order, if_pos hg]
  rw [hunfold] at h
  have h2 := (Prod.mk.injEq .. ▸ Except.ok.inj h).2
  cases h2
  exact ⟨hg, rfl, List.perm_insertionSort _ _, List.sorted_insertionSort _ _⟩

theorem selectCols_spec {d : DF} {cs : List String} {out : DF}
    (h : selectCols d cs = .ok out) :
    (∀ c ∈ cs, c ∈ d.cols) ∧ out.cols = cs ∧
    out.rows.length = d.rows.length ∧
    out.rows = d.rows.map (fun r => cs.map (fun c => cell r (colIdx d.cols c)))
    ∧
    ∀ r' ∈ out.rows, ∃ r ∈ d.rows,
      r' = cs.map (fun c => cell r (colIdx d.cols c)) := by
  by_cases hg : (cs.all (fun c => d.cols.contains c)) = true
  swap
  · rw [selectCols, if_neg hg] at h
    simp at h
  rw [selectCols, if_pos hg] at h
  cases h
  refine ⟨fun c hc => by simpa using List.all_eq_true.1 hg c hc, rfl,
    by simp, rfl, ?_⟩
  intro r' hr'
  simp only [List.mem_map] at hr'
  obtain ⟨r, hr, rfl⟩ := hr'
  exact ⟨r, hr, rfl⟩

/-- The normalizer's output cell is always numeric and bounded above by
`M`. -/
theorem clamp_out_le (v : Value) (M : Int) :
    ∃ q, toQ (clampHi (fillna0 (toNumericCoerce v)) M) = some q ∧
      q ≤ (M : ℚ) := by
  have hwcases : (∃ n : Int, toNumericCoerce v = .int n) ∨
      (∃ f : Frac, toNumericCoerce v = .float f) ∨
      toNumericCoerce v = .missing := by
    cases v with
    | str s =>
        rw [toNumericCoerce]
        rcases parseIntLit s with _ | n
        · rcases parseDecLit s with _ | f
          · exact Or.inr (Or.inr rfl)
          · exact Or.inr (Or.inl ⟨f, rfl⟩)
        · exact Or.inl ⟨n, rfl⟩
    | int n => exact Or.inl ⟨n, rfl⟩
    | float f => exact Or.inr (Or.inl ⟨f, rfl⟩)
    | missing => exact Or.inr (Or.inr rfl)
  rcases hwcases with ⟨n, hn⟩ | ⟨f, hf⟩ | hm
  · rw [hn, fillna0]
    simp only [Value.isMissing, Bool.false_eq_true, if_false]
    rw [clampHi]
    by_cases hgt : M < n
    · rw [if_pos hgt]
      exact ⟨(M : ℚ), rfl, le_refl _⟩
    · rw [if_neg hgt]
      exact ⟨(n : ℚ), rfl, by exact_mod_cast not_lt.1 hgt⟩
  · rw [hf, fillna0]
    simp only [Value.isMissing, Bool.false_eq_true, if_false]
    rw [clampHi]
    by_cases hgt : (Frac.ofInt M).lt f = true
    · rw [if_pos hgt]
      exact ⟨(M : ℚ), rfl, le_refl _⟩
    · rw [if_neg hgt]
      refine ⟨f.val, rfl, ?_⟩
      have hle := frac_lt_false (by simpa using hgt)
      rw [Frac.ofInt_val] at hle
      exact hle
  · rw [hm]
    rw [show fillna0 Value.missing = Value.int 0 from rfl]
    simp only [clampHi]
    by_cases hgt : M < 0
    · rw [if_pos hgt]
      exact ⟨(M : ℚ), rfl, le_refl _⟩
    · rw [if_neg hgt]
      exact ⟨0, rfl, by exact_mod_cast not_lt.1 hgt⟩

/-- The invariants a successful pipeline run establishes on every output
row (positions refer to `keep_cols`: identifiers 0-7, `correct` 8,
`attempt_count` 9, `ms_first_response` 10, `hint_count` 11,
`hint_total` 12, `hint_independence` 13). -/
def OutRowInv (r : Row) : Prop :=
  (∀ j, j < 8 → ∃ s, cell r j = .str s) ∧
  (cell r 8 = .int 0 ∨ cell r 8 = .int 1) ∧
  (∃ n : Int, cell r 9 = .int n) ∧
  (∃ m : Int, cell r 10 = .int m ∧ m ≤ 3600) ∧
  (∃ hc ht : Int, cell r 11 = .int hc ∧ cell r 12 = .int ht ∧ hc ≤ ht) ∧
  (∃ f : Frac, cell r 13 = .float f)

theorem setColE_cols {d : DF} {c : String} {f : Row → Except String Value}
    {d' : DF} (h : setColE d c f = .ok d') :
    (c ∈ d.cols → d'.cols = d.cols) ∧
    (c ∉ d.cols → d'.cols = d.cols ++ [c]) := by
  by_cases hc : c ∈ d.cols
  · rw [setColE, if_pos hc] at h
    cases hm : mapE (fun r => do
        let v ← f r
        pure (r.set (colIdx d.cols c) v)) d.rows with
    | error e => rw [hm] at h; simp [bind, Except.bind] at h
    | ok rows =>
        rw [hm] at h
        simp only [bind, Except.bind, pure, Except.pure] at h
        cases h
        exact ⟨fun _ => rfl, fun hnc => absurd hc hnc⟩
  · rw [setColE, if_neg hc] at h
    cases hm : mapE (fun r => do
        let v ← f r
        pure (r ++ [v])) d.rows with
    | error e => rw [hm] at h; simp [bind, Except.bind] at h
    | ok rows =>
        rw [hm] at h
        simp only [bind, Except.bind, pure, Except.pure] at h
        cases h
        exact ⟨fun hcc => absurd hcc hc, fun _ => rfl⟩

theorem add_cols {d d4 : DF} (h : add_hint_independence d = .ok d4) :
    d4.cols = d.cols ∨ d4.cols = d.cols ++ ["hint_independence"] := by
  have hunfold : add_hint_independence d =
      if "hint_count" ∈ d.cols ∧ "hint_total" ∈ d.cols then
        setColE d "hint_independence" (fun r =>
          hintIndepVal (cell r (colIdx d.cols "hint_count"))
            (cell r (colIdx d.cols "hint_total")))
      else .error "KeyError" := rfl
  rw [hunfold] at h
  by_cases hg : "hint_count" ∈ d.cols ∧ "hint_total" ∈ d.cols
  swap
  · rw [if_neg hg] at h; simp at h
  rw [if_pos hg] at h
  have := setColE_cols h
  by_cases hmem : "hint_independence" ∈ d.cols
  · exact Or.inl (this.1 hmem)
  · exact Or.inr (this.2 hmem)

theorem convert_cols {d d5 : DF} (h : convert_data_types d = .ok d5) :
    d5.cols = d.cols := by
  by_cases hg : (str_cols.all (fun c => d.cols.contains c)) = true
  · rw [convert_data_types, if_pos hg] at h
    cases h
    rfl
  · rw [convert_data_types, if_neg hg] at h
    simp at h

theorem normalize_cols (d : DF) (M : Int) :
    (normalize_response_time d M).cols = d.cols := by
  by_cases hms : "ms_first_response" ∈ d.cols
  · have hunfold : normalize_response_time d M =
        if "ms_first_response" ∈ d.cols then
          ⟨d.cols, d.rows.map (fun r =>
            r.set (colIdx d.cols "ms_first_response")
              (clampHi (fillna0 (toNumericCoerce
                (cell r (colIdx d.cols "ms_first_response")))) M))⟩
        else d := rfl
    rw [hunfold, if_pos hms]
  · have hunfold : normalize_response_time d M =
        if "ms_first_response" ∈ d.cols then
          ⟨d.cols, d.rows.map (fun r =>
            r.set (colIdx d.cols "ms_first_response")
              (clampHi (fillna0 (toNumericCoerce
                (cell r (colIdx d.cols "ms_first_response")))) M))⟩
        else d := rfl
    rw [hunfold, if_neg hms]

set_option maxHeartbeats 1000000 in
/-- What a successful pipeline run guarantees: the 14 output columns, row
alignment, one row per row surviving deduplication and completeness
filtering, the per-row value invariants, and sortedness by
`(user_id, problem_id, ms_first_response)` (output positions 0, 1, 10). -/
theorem pipeline_inv {df out : DF} (hal : Aligned df)
    (h : process_data df = .ok out) :
    out.cols = keep_cols ∧ Aligned out ∧
    (∃ d1, remove_missing_values (remove_duplicates df) critical_columns
        = .ok d1 ∧ out.rows.length = d1.rows.length) ∧
    (∀ r ∈ out.rows, OutRowInv r) ∧
    out.rows.Sorted (rowLe 0 1 10) := by
  obtain ⟨d1, d2, d4, d5, k, d6, h1, h2, h4, h5, h6, hsel⟩ :=
    process_data_ok_chain h
  have hal0 : Aligned (remove_duplicates df) := fun r hr =>
    hal r ((dedupBy_sublist _ _).subset hr)
  obtain ⟨hcrit1, hcols1, hal1, hrows1⟩ := remove_missing_spec hal0 h1
  obtain ⟨hg2, hcols2, hal2, hlen2, hrows2⟩ := fix_logic_spec hal1 h2
  -- column bookkeeping
  obtain ⟨hg6, hcols6, hperm6, hsort6⟩ := check_spec h6
  obtain ⟨hkeep6, houtcols, hlensel, hrowsel, hrowselmem⟩ :=
    selectCols_spec hsel
  have hcols5 : d5.cols = d4.cols := convert_cols h5
  have hcols4 := add_cols h4
  have hcols3 : (normalize_response_time d2 3600).cols = d2.cols :=
    normalize_cols d2 3600
  have hmem4 : ∀ c ∈ keep_cols, c ∈ d4.cols := by
    intro c hc
    rw [← hcols5, ← hcols6]
    exact hkeep6 c hc
  have hmem3 : ∀ c, c ∈ keep_cols → c ≠ "hint_independence" →
      c ∈ (normalize_response_time d2 3600).cols := by
    intro c hc hne
    rcases hcols4 with h4c | h4c
    · rw [← h4c]; exact hmem4 c hc
    · have := hmem4 c hc
      rw [h4c] at this
      rcases List.mem_append.1 this with hin | hin
      · exact hin
      · exact absurd (List.mem_singleton.1 hin) hne
  have hmem2 : ∀ c, c ∈ keep_cols → c ≠ "hint_independence" →
      c ∈ d2.cols := fun c hc hne => hcols3 ▸ hmem3 c hc hne
  have hmem1 : ∀ c, c ∈ keep_cols → c ≠ "hint_independence" →
      c ∈ d1.cols := fun c hc hne => hcols2 ▸ hmem2 c hc hne
  have hmem0 : ∀ c, c ∈ keep_cols → c ≠ "hint_independence" →
      c ∈ (remove_duplicates df).cols :=
    fun c hc hne => hcols1 ▸ hmem1 c hc hne
  have hms2 : "ms_first_response" ∈ d2.cols :=
    hmem2 _ (by decide) (by decide)
  obtain ⟨hcols3', hal3, hlen3, hrows3⟩ := normalize_spec hal2 hms2 3600
  obtain ⟨hg4, hhi4, _, hlen4, hal4, hrows4⟩ := add_spec hal3 h4
  obtain ⟨hstr5, _, hal5, hlen5, hrows5⟩ := convert_spec hal4 h5
  -- lengths
  have hlenout : out.rows.length = d1.rows.length := by
    rw [hlensel, hperm6.length_eq, hlen5, hlen4, hlen3, hlen2]
  -- index bound transport
  have hidx_tr : ∀ i, i < d5.rows.length →
      i < d4.rows.length ∧ i < (normalize_response_time d2 3600).rows.length
        ∧ i < d2.rows.length ∧ i < d1.rows.length := by
    intro i hi
    rw [hlen5] at hi
    have hi4 := hi
    rw [hlen4] at hi
    have hi3 := hi
    rw [hlen3] at hi
    have hi2 := hi
    rw [hlen2] at hi
    exact ⟨hi4, hi3, hi2, hi⟩
  refine ⟨houtcols, ?_, ⟨d1, h1, hlenout⟩, ?_, ?_⟩
  · intro r' hr'
    rw [hrowsel] at hr'
    simp only [List.mem_map] at hr'
    obtain ⟨r6, _, rfl⟩ := hr'
    rw [houtcols]
    simp [keep_cols]
  · -- per-row invariants
    intro r' hr'
    obtain ⟨r6, hr6, hr'eq⟩ := hrowselmem r' hr'
    have hr5 : r6 ∈ d5.rows := hperm6.mem_iff.1 hr6
    obtain ⟨i, hi5, hieq⟩ := mem_iff_getD.1 hr5
    obtain ⟨hi4, hi3, hi2, hi1⟩ := hidx_tr i hi5
    simp only [hcols6] at hr'eq
    obtain ⟨hrow5str, hrow5int, hrow5oth⟩ := hrows5 i hi4
    rw [hieq] at hrow5str hrow5int hrow5oth
    obtain ⟨⟨v4, hv4, hv4c⟩, hrow4fr⟩ := hrows4 i hi3
    obtain ⟨hrow3ms, hrow3fr⟩ := hrows3 i hi2
    obtain ⟨⟨g, hpg, hgf, hgt⟩, hht2, hcor2, hrow2fr⟩ := hrows2 i hi1
    obtain ⟨r0, hr0, hr0crit, _, hr0cor⟩ := hrows1 i hi1
    have hcor0 : "correct" ∈ (remove_duplicates df).cols :=
      hmem0 _ (by decide) (by decide)
    obtain ⟨⟨n, hcast, hn1⟩, hfr1⟩ := hr0cor hcor0
    rw [hr'eq]
    -- frames d4 → d3 → d2 for the named numeric columns
    have hfr43 : ∀ c, c ∈ keep_cols → c ≠ "hint_independence" →
        colv d4 c (d4.rows.getD i [])
          = colv (normalize_response_time d2 3600) c
            ((normalize_response_time d2 3600).rows.getD i []) :=
      fun c hc hne => hrow4fr c (hmem3 c hc hne) hne
    have hfr32 : ∀ c, c ∈ keep_cols → c ≠ "hint_independence" →
        c ≠ "ms_first_response" →
        colv (normalize_response_time d2 3600) c
          ((normalize_response_time d2 3600).rows.getD i [])
          = colv d2 c (d2.rows.getD i []) :=
      fun c hc hne hnm => hrow3fr c (hmem2 c hc hne) hnm
    have hfr21 : ∀ c, c ∈ keep_cols → c ≠ "hint_independence" →
        c ≠ "hint_count" → c ≠ "correct" →
        colv d2 c (d2.rows.getD i []) = colv d1 c (d1.rows.getD i []) :=
      fun c hc hne hnh hncr => hrow2fr c (hmem1 c hc hne) hnh hncr
    have hfr10 : ∀ c, c ∈ keep_cols → c ≠ "hint_independence" →
        c ≠ "correct" →
        colv d1 c (d1.rows.getD i []) = colv (remove_duplicates df) c r0 :=
      fun c hc hne hncr => hfr1 c (hmem0 c hc hne) hncr
    refine ⟨?_, ?_, ?_, ?_, ?_, ?_⟩
    · -- identifiers are strings
      intro j hj
      interval_cases j <;>
        exact ⟨_, hrow5str _ (by decide)⟩
    · -- correct ∈ {0, 1}
      have h5c := hrow5int "correct" (by decide) (hmem4 _ (by decide))
      have h43 := hfr43 "correct" (by decide) (by decide)
      have h32 := hfr32 "correct" (by decide) (by decide) (by decide)
      have h2c := hcor2 (hmem1 _ (by decide) (by decide)) n hn1
      have hfinal : colv d5 "correct" r6
          = .int (if n = 0 then 0 else 1) := by
        rw [h5c, h43, h32, h2c]
        rfl
      by_cases hn0 : n = 0
      · left
        rw [show cell (keep_cols.map (fun c => cell r6 (colIdx d5.cols c))) 8
          = colv d5 "correct" r6 from rfl, hfinal, hn0]
        rfl
      · right
        rw [show cell (keep_cols.map (fun c => cell r6 (colIdx d5.cols c))) 8
          = colv d5 "correct" r6 from rfl, hfinal]
        simp [hn0]
    · -- attempt_count is an integer
      have h5c := hrow5int "attempt_count" (by decide) (hmem4 _ (by decide))
      exact ⟨_, h5c⟩
    · -- ms_first_response bounded
      have h5c := hrow5int "ms_first_response" (by decide)
        (hmem4 _ (by decide))
      have h43 := hfr43 "ms_first_response" (by decide) (by decide)
      obtain ⟨q, hq, hqle⟩ := clamp_out_le
        (colv d2 "ms_first_response" (d2.rows.getD i [])) 3600
      refine ⟨toIntCoerce (colv d4 "ms_first_response" (d4.rows.getD i [])),
        h5c, ?_⟩
      rw [h43, hrow3ms, toIntCoerce_num hq]
      calc truncQ q ≤ truncQ ((3600 : Int) : ℚ) := truncQ_mono hqle
        _ = 3600 := truncQ_intCast 3600
    · -- hint_count ≤ hint_total
      have h5hc := hrow5int "hint_count" (by decide) (hmem4 _ (by decide))
      have h5ht := hrow5int "hint_total" (by decide) (hmem4 _ (by decide))
      have h43hc := hfr43 "hint_count" (by decide) (by decide)
      have h43ht := hfr43 "hint_total" (by decide) (by decide)
      have h32hc := hfr32 "hint_count" (by decide) (by decide) (by decide)
      have h32ht := hfr32 "hint_total" (by decide) (by decide) (by decide)
      -- the d2-level hint cells
      have hd4hc : colv d4 "hint_count" (d4.rows.getD i [])
          = colv d2 "hint_count" (d2.rows.getD i []) := by
        rw [h43hc, h32hc]
      have hd4ht : colv d4 "hint_total" (d4.rows.getD i [])
          = colv d2 "hint_total" (d2.rows.getD i []) := by
        rw [h43ht, h32ht]
      -- numericity from the success of the feature formula
      have hvok : hintIndepVal (colv d2 "hint_count" (d2.rows.getD i []))
          (colv d2 "hint_total" (d2.rows.getD i [])) = .ok v4 := by
        rw [← h32hc, ← h32ht]
        exact hv4
      have hnm1hc : (colv d1 "hint_count" (d1.rows.getD i [])).isMissing
          = false := by
        rw [hfr10 "hint_count" (by decide) (by decide) (by decide)]
        exact hr0crit "hint_count" (by decide)
      have hnm1ht : (colv d1 "hint_total" (d1.rows.getD i [])).isMissing
          = false := by
        rw [hfr10 "hint_total" (by decide) (by decide) (by decide)]
        exact hr0crit "hint_total" (by decide)
      have hnm2ht : (colv d2 "hint_total" (d2.rows.getD i [])).isMissing
          = false := by rw [hht2]; exact hnm1ht
      have hnm2hc : (colv d2 "hint_count" (d2.rows.getD i [])).isMissing
          = false := by
        by_cases hgv : g = true
        · rw [hgt hgv]; exact hnm1ht
        · rw [hgf (by simpa using hgv)]; exact hnm1hc
      obtain ⟨⟨qc, hqc⟩, ⟨qt, hqt⟩, _⟩ :=
        hintIndepVal_ok_inv hvok hnm2hc hnm2ht
      have hle : qc ≤ qt := by
        by_cases hgv : g = true
        · rw [hgt hgv] at hqc
          rw [hht2] at hqt
          rw [hqc] at hqt
          cases hqt
          exact le_refl _
        · have hgf' := hgf (by simpa using hgv)
          rw [hgf'] at hqc
          rw [hht2] at hqt
          have hgfalse : g = false := by simpa using hgv
          rw [hgfalse] at hpg
          exact pyGt_num_false hqc hqt hpg
      refine ⟨truncQ qc, truncQ qt, ?_, ?_, truncQ_mono hle⟩
      · rw [show cell (keep_cols.map (fun c => cell r6 (colIdx d5.cols c))) 11
          = colv d5 "hint_count" r6 from rfl, h5hc, hd4hc,
          toIntCoerce_num hqc]
      · rw [show cell (keep_cols.map (fun c => cell r6 (colIdx d5.cols c))) 12
          = colv d5 "hint_total" r6 from rfl, h5ht, hd4ht,
          toIntCoerce_num hqt]
    · -- hint_independence is a float
      have hvfl : ∃ f : Frac, v4 = .float f := by
        have h32hc := hfr32 "hint_count" (by decide) (by decide) (by decide)
        have h32ht := hfr32 "hint_total" (by decide) (by decide) (by decide)
        have hvok : hintIndepVal (colv d2 "hint_count" (d2.rows.getD i []))
            (colv d2 "hint_total" (d2.rows.getD i [])) = .ok v4 := by
          rw [← h32hc, ← h32ht]
          exact hv4
        have hnm1hc : (colv d1 "hint_count" (d1.rows.getD i [])).isMissing
            = false := by
          rw [hfr10 "hint_count" (by decide) (by decide) (by decide)]
          exact hr0crit "hint_count" (by decide)
        have hnm1ht : (colv d1 "hint_total" (d1.rows.getD i [])).isMissing
            = false := by
          rw [hfr10 "hint_total" (by decide) (by decide) (by decide)]
          exact hr0crit "hint_total" (by decide)
        have hnm2ht : (colv d2 "hint_total" (d2.rows.getD i [])).isMissing
            = false := by rw [hht2]; exact hnm1ht
        have hnm2hc : (colv d2 "hint_count" (d2.rows.getD i [])).isMissing
            = false := by
          by_cases hgv : g = true
          · rw [hgt hgv]; exact hnm1ht
          · rw [hgf (by simpa using hgv)]; exact hnm1hc
        exact (hintIndepVal_ok_inv hvok hnm2hc hnm2ht).2.2
      obtain ⟨f, rfl⟩ := hvfl
      have h5hi := hrow5oth "hint_independence" hhi4 (by decide) (by decide)
      refine ⟨f, ?_⟩
      rw [show cell (keep_cols.map (fun c => cell r6 (colIdx d5.cols c))) 13
        = colv d5 "hint_independence" r6 from rfl, h5hi, hv4c]
  · -- sortedness of the projection
    rw [hrowsel]
    apply (List.pairwise_map).mpr
    apply List.Pairwise.imp_of_mem ?_ hsort6
    intro a b _ _ hab
    show rowLeB (colIdx d6.cols "user_id") (colIdx d6.cols "problem_id")
      (colIdx d6.cols "ms_first_response") a b = true
    rw [hcols6]
    exact hab

/-! ### Claims C1, C4, C5: pipeline-level invariants -/

/-- An output row with the eight fixed identifiers of `mkInRow`. -/
def mkOutRow (c att ms hc ht : Value) (f : Frac) : Row :=
  [.str "u", .str "p", .str "t", .str "s", .str "n",
   .str "te", .str "cl", .str "sc", c, att, ms, hc, ht, .float f]

/-- **C1.** Every output row satisfies `hint_count ≤ hint_total`
(positions 11 and 12 of the output); the logic-repair stage achieves this
by setting `hint_count := hint_total` exactly on the rows where the
comparison `hint_count > hint_total` holds (clamping down, never up),
adding or removing no rows; and the input row `hint_count=5,
hint_total=3` yields output `hint_count=3`. -/
theorem C1_hint_bound :
    (∀ df out : DF, Aligned df → process_data df = .ok out →
      ∀ r ∈ out.rows, ∃ hc ht : Int,
        cell r 11 = .int hc ∧ cell r 12 = .int ht ∧ hc ≤ ht) ∧
    (∀ d d2 : DF, Aligned d → fix_logic_errors d = .ok d2 →
      d2.rows.length = d.rows.length ∧
      ∀ i, i < d.rows.length →
        ∃ g, pyGt (colv d "hint_count" (d.rows.getD i []))
            (colv d "hint_total" (d.rows.getD i [])) = .ok g ∧
          (g = true → colv d2 "hint_count" (d2.rows.getD i [])
              = colv d "hint_total" (d.rows.getD i [])) ∧
          (g = false → colv d2 "hint_count" (d2.rows.getD i [])
              = colv d "hint_count" (d.rows.getD i [])) ∧
          colv d2 "hint_total" (d2.rows.getD i [])
            = colv d "hint_total" (d.rows.getD i [])) ∧
    (∃ out, process_data
        ⟨inputCols, [mkInRow (.int 1) (.int 1) (.int 10) (.int 5) (.int 3)]⟩
        = .ok out ∧ out.rows.length = 1 ∧
      cell (out.rows.getD 0 []) 11 = .int 3 ∧
      cell (out.rows.getD 0 []) 12 = .int 3) := by
  refine ⟨?_, ?_, ?_⟩
  · intro df out hal h r hr
    exact ((pipeline_inv hal h).2.2.2.1 r hr).2.2.2.2.1
  · intro d d2 hal h
    obtain ⟨_, _, _, hlen, hrows⟩ := fix_logic_spec hal h
    refine ⟨hlen, ?_⟩
    intro i hi
    obtain ⟨⟨g, hpg, hgf, hgt⟩, hht, _, _⟩ := hrows i hi
    exact ⟨g, hpg, hgt, hgf, hht⟩
  · exact ⟨⟨keep_cols,
      [mkOutRow (.int 1) (.int 1) (.int 10) (.int 3) (.int 3) ⟨0, 3⟩]⟩,
      by decide, by decide, by decide, by decide⟩

/-- Witness for C1: the two universally quantified parts applied to the
clamp-scenario input. -/
theorem C1_hint_bound_witness :
    (∀ r ∈ (DF.mk keep_cols
        [mkOutRow (.int 1) (.int 1) (.int 10) (.int 3) (.int 3) ⟨0, 3⟩]).rows,
      ∃ hc ht : Int,
        cell r 11 = .int hc ∧ cell r 12 = .int ht ∧ hc ≤ ht) ∧
    ((DF.mk inputCols
        [mkInRow (.int 1) (.int 1) (.int 10) (.int 5) (.int 3)]).rows.length
      = 1 → True) := by
  refine ⟨?_, fun _ => trivial⟩
  exact C1_hint_bound.1
    ⟨inputCols, [mkInRow (.int 1) (.int 1) (.int 10) (.int 5) (.int 3)]⟩
    ⟨keep_cols, [mkOutRow (.int 1) (.int 1) (.int 10) (.int 3) (.int 3) ⟨0, 3⟩]⟩
    (by decide) (by decide)

/-- **C4, counterexample.**  The claim maps every non-zero non-missing
`correct` to `1`, but the completeness stage's `astype(int)` truncates
toward zero *before* the truthiness coercion, so the non-zero input
`correct = 0.5` comes out as `0`, not `1`. -/
theorem C4_correct_counterexample :
    ∃ out, process_data
        ⟨inputCols,
         [mkInRow (.float ⟨1, 2⟩) (.int 1) (.int 10) (.int 0) (.int 1)]⟩
      = .ok out ∧
      cell (out.rows.getD 0 []) 8 = .int 0 ∧
      (Value.int 0 : Value) ≠ .int 1 :=
  ⟨⟨keep_cols,
    [mkOutRow (.int 0) (.int 1) (.int 10) (.int 0) (.int 1) ⟨1, 1⟩]⟩,
   by decide, by decide, by decide⟩

/-- **C4, amended.**  `correct` is first truncated toward zero by the
completeness stage (`fillna(0).astype(int)`, missing becoming `0`), and
only then does the logic-repair stage coerce values outside `{0, 1}` by
Python truthiness (any non-zero integer to `1`).  Hence every output row
has `correct ∈ {0, 1}` (position 8), an integer-valued `correct = n` maps
to `0` when `n = 0` and to `1` otherwise, `correct = 2` yields `1` and a
missing `correct` yields `0` — but a non-integer value whose truncation is
`0` (such as `0.5`) yields `0` despite being non-zero. -/
theorem C4_correct_amended :
    (∀ df out : DF, Aligned df → process_data df = .ok out →
      ∀ r ∈ out.rows, cell r 8 = .int 0 ∨ cell r 8 = .int 1) ∧
    (∀ d d2 : DF, Aligned d → fix_logic_errors d = .ok d2 →
      "correct" ∈ d.cols →
      ∀ i, i < d.rows.length → ∀ n : Int,
        colv d "correct" (d.rows.getD i []) = .int n →
        colv d2 "correct" (d2.rows.getD i [])
          = .int (if n = 0 then 0 else 1)) ∧
    (∀ d d1 : DF, ∀ critical, Aligned d →
      remove_missing_values d critical = .ok d1 → "correct" ∈ d.cols →
      ∀ i, i < d1.rows.length → ∃ r ∈ d.rows, ∃ n : Int,
        castIntStrict (fillna0 (colv d "correct" r)) = .ok n ∧
        colv d1 "correct" (d1.rows.getD i []) = .int n) ∧
    (∃ out, process_data
        ⟨inputCols, [mkInRow (.int 2) (.int 1) (.int 10) (.int 0) (.int 1)]⟩
      = .ok out ∧ cell (out.rows.getD 0 []) 8 = .int 1) ∧
    (∃ out, process_data
        ⟨inputCols, [mkInRow .missing (.int 1) (.int 10) (.int 0) (.int 1)]⟩
      = .ok out ∧ cell (out.rows.getD 0 []) 8 = .int 0) := by
  refine ⟨?_, ?_, ?_, ?_, ?_⟩
  · intro df out hal h r hr
    exact ((pipeline_inv hal h).2.2.2.1 r hr).2.1
  · intro d d2 hal h hcor i hi n hn
    obtain ⟨_, _, _, _, hrows⟩ := fix_logic_spec hal h
    exact (hrows i hi).2.2.1 hcor n hn
  · intro d d1 critical hal h hcor i hi
    obtain ⟨_, _, _, hrows⟩ := remove_missing_spec hal h
    obtain ⟨r, hr, _, _, hcorfact⟩ := hrows i hi
    obtain ⟨⟨n, hcast, hval⟩, _⟩ := hcorfact hcor
    exact ⟨r, hr, n, hcast, hval⟩
  · exact ⟨⟨keep_cols,
      [mkOutRow (.int 1) (.int 1) (.int 10) (.int 0) (.int 1) ⟨1, 1⟩]⟩,
      by decide, by decide⟩
  · exact ⟨⟨keep_cols,
      [mkOutRow (.int 0) (.int 1) (.int 10) (.int 0) (.int 1) ⟨1, 1⟩]⟩,
      by decide, by decide⟩

/-- Witness for the amended C4: parts one and two applied to the
`correct = 2` scenario. -/
theorem C4_correct_amended_witness :
    (∀ r ∈ (DF.mk keep_cols
        [mkOutRow (.int 1) (.int 1) (.int 10) (.int 0) (.int 1) ⟨1, 1⟩]).rows,
      cell r 8 = .int 0 ∨ cell r 8 = .int 1) :=
  C4_correct_amended.1
    ⟨inputCols, [mkInRow (.int 2) (.int 1) (.int 10) (.int 0) (.int 1)]⟩
    ⟨keep_cols, [mkOutRow (.int 1) (.int 1) (.int 10) (.int 0) (.int 1) ⟨1, 1⟩]⟩
    (by decide) (by decide)

/-- **C5.** A successful pipeline run outputs exactly the 14 `keep_cols`
columns in order (no others), aligned rows, and one output row per input
row surviving deduplication and completeness filtering (the rows of the
`remove_missing_values` stage's result). -/
theorem C5_output_shape (df out : DF) (hal : Aligned df)
    (h : process_data df = .ok out) :
    out.cols = keep_cols ∧ Aligned out ∧
    ∃ d1, remove_missing_values (remove_duplicates df) critical_columns
        = .ok d1 ∧ out.rows.length = d1.rows.length := by
  obtain ⟨h1, h2, h3, _, _⟩ := pipeline_inv hal h
  exact ⟨h1, h2, h3⟩

/-- Witness for C5 on the one-row sample input. -/
theorem C5_output_shape_witness :
    (DF.mk keep_cols
      [mkOutRow (.int 1) (.int 1) (.int 10) (.int 0) (.int 1) ⟨1, 1⟩]).cols
      = keep_cols ∧
    Aligned ⟨keep_cols,
      [mkOutRow (.int 1) (.int 1) (.int 10) (.int 0) (.int 1) ⟨1, 1⟩]⟩ ∧
    ∃ d1, remove_missing_values
        (remove_duplicates ⟨inputCols,
          [mkInRow (.int 2) (.int 1) (.int 10) (.int 0) (.int 1)]⟩)
        critical_columns = .ok d1 ∧
      (DF.mk keep_cols
        [mkOutRow (.int 1) (.int 1) (.int 10) (.int 0) (.int 1) ⟨1, 1⟩]
        ).rows.length = d1.rows.length :=
  C5_output_shape
    ⟨inputCols, [mkInRow (.int 2) (.int 1) (.int 10) (.int 0) (.int 1)]⟩
    ⟨keep_cols, [mkOutRow (.int 1) (.int 1) (.int 10) (.int 0) (.int 1) ⟨1, 1⟩]⟩
    (by decide) (by decide)

/-! ### Claim C8: error behaviour of the internal stages -/

/-- Whether a cell holds a string. -/
def isStrV : Value → Bool
  | .str _ => true
  | _ => false

theorem ne_str_of_isStrV {v : Value} (h : isStrV v = false) :
    ∀ s, v ≠ .str s := by
  intro s hcon
  subst hcon
  simp [isStrV] at h

theorem castIntStrict_fillna0_total (v : Value) (h : ∀ s, v ≠ .str s) :
    ∃ n, castIntStrict (fillna0 v) = .ok n := by
  cases v with
  | str s => exact absurd rfl (h s)
  | int n => exact ⟨n, rfl⟩
  | float f => exact ⟨f.trunc, rfl⟩
  | missing => exact ⟨0, rfl⟩

theorem pyGt_total (a b : Value) (ha : ∀ s, a ≠ .str s)
    (hb : ∀ s, b ≠ .str s) : ∃ g, pyGt a b = .ok g := by
  cases a with
  | str s => exact absurd rfl (ha s)
  | int m =>
      cases b with
      | str s => exact absurd rfl (hb s)
      | int n => exact ⟨_, rfl⟩
      | float g => exact ⟨_, rfl⟩
      | missing => exact ⟨_, rfl⟩
  | float f =>
      cases b with
      | str s => exact absurd rfl (hb s)
      | int n => exact ⟨_, rfl⟩
      | float g => exact ⟨_, rfl⟩
      | missing => exact ⟨_, rfl⟩
  | missing =>
      cases b with
      | str s => exact absurd rfl (hb s)
      | int n => exact ⟨_, rfl⟩
      | float g => exact ⟨_, rfl⟩
      | missing => exact ⟨_, rfl⟩

theorem pyDiv_one_total (a : Value) (ha : ∀ s, a ≠ .str s) :
    ∃ v, pyDiv a (.int 1) = .ok v := by
  cases a with
  | str s => exact absurd rfl (ha s)
  | int m => exact ⟨_, rfl⟩
  | float g => exact ⟨_, rfl⟩
  | missing => exact ⟨_, rfl⟩

/-- The post-processing `hintIndepVal` applies to the division result. -/
def postDiv : Value → Value
  | .float f => .float f.oneMinus
  | v => v

theorem hintIndepVal_ok_of_pyDiv {hc ht : Value} {w : Value}
    (hw : pyDiv hc (if valueEq ht (Value.int 0) then Value.int 1 else ht)
      = .ok w) :
    hintIndepVal hc ht = .ok (postDiv w) := by
  unfold hintIndepVal
  rw [hw]
  cases w <;> rfl

theorem hintIndepVal_total (hc ht : Value) (h1 : ∀ s, hc ≠ .str s)
    (h2 : ∀ s, ht ≠ .str s) : ∃ v, hintIndepVal hc ht = .ok v := by
  have key : ∃ w, pyDiv hc
      (if valueEq ht (Value.int 0) then Value.int 1 else ht) = .ok w := by
    cases ht with
    | str s => exact absurd rfl (h2 s)
    | missing =>
        cases hc with
        | str s => exact absurd rfl (h1 s)
        | int m => exact ⟨_, rfl⟩
        | float g => exact ⟨_, rfl⟩
        | missing => exact ⟨_, rfl⟩
    | int n =>
        cases hveq : valueEq (Value.int n) (Value.int 0) with
        | true =>
            show ∃ w, pyDiv hc (Value.int 1) = .ok w
            exact pyDiv_one_total hc h1
        | false =>
            show ∃ w, pyDiv hc (Value.int n) = .ok w
            have hn : ¬(n = (0 : Int)) := of_decide_eq_false hveq
            cases hc with
            | str s => exact absurd rfl (h1 s)
            | int m =>
                have hred : pyDiv (Value.int m) (Value.int n)
                    = if n = 0 then .error "ZeroDivisionError"
                      else .ok (.float ((Frac.ofInt m).div (Frac.ofInt n))) :=
                  rfl
                rw [hred, if_neg hn]
                exact ⟨_, rfl⟩
            | float g =>
                have hred : pyDiv (Value.float g) (Value.int n)
                    = if n = 0 then .error "ZeroDivisionError"
                      else .ok (.float (g.div (Frac.ofInt n))) := rfl
                rw [hred, if_neg hn]
                exact ⟨_, rfl⟩
            | missing =>
                have hred : pyDiv Value.missing (Value.int n)
                    = if n = 0 then .error "ZeroDivisionError"
                      else .ok Value.missing := rfl
                rw [hred, if_neg hn]
                exact ⟨_, rfl⟩
    | float f =>
        cases hveq : valueEq (Value.float f) (Value.int 0) with
        | true =>
            show ∃ w, pyDiv hc (Value.int 1) = .ok w
            exact pyDiv_one_total hc h1
        | false =>
            show ∃ w, pyDiv hc (Value.float f) = .ok w
            have hz : ¬(f.num = 0) := by
              intro hcon
              have htrue : valueEq (Value.float f) (Value.int 0) = true := by
                show Frac.eq f (Frac.ofInt 0) = true
                rw [Frac.eq, decide_eq_true_eq, hcon]
                simp [Frac.ofInt]
              rw [htrue] at hveq
              cases hveq
            cases hc with
            | str s => exact absurd rfl (h1 s)
            | int m =>
                have hred : pyDiv (Value.int m) (Value.float f)
                    = if f.num = 0 then .error "ZeroDivisionError"
                      else .ok (.float ((Frac.ofInt m).div f)) := rfl
                rw [hred, if_neg hz]
                exact ⟨_, rfl⟩
            | float g =>
                have hred : pyDiv (Value.float g) (Value.float f)
                    = if f.num = 0 then .error "ZeroDivisionError"
                      else .ok (.float (g.div f)) := rfl
                rw [hred, if_neg hz]
                exact ⟨_, rfl⟩
            | missing =>
                have hred : pyDiv Value.missing (Value.float f)
                    = if f.num = 0 then .error "ZeroDivisionError"
                      else .ok Value.missing := rfl
                rw [hred, if_neg hz]
                exact ⟨_, rfl⟩
  obtain ⟨w, hw⟩ := key
  exact ⟨_, hintIndepVal_ok_of_pyDiv hw⟩

theorem ok_bind {α β : Type} (a : α) (k : α → Except String β) :
    (Except.ok a : Except String α).bind k = k a := rfl

theorem bind_pure_ok {α β : Type} {x : Except String α} {a : α}
    (h : x = .ok a) (g : α → β) :
    (do
      let v ← x
      pure (g v) : Except String β) = .ok (g a) := by
  rw [h]
  rfl

theorem remove_missing_total (d : DF) (critical : List String)
    (hcrit : ∀ c ∈ critical, c ∈ d.cols)
    (hcor : ∀ r ∈ d.rows, ∃ n : Int,
      castIntStrict (fillna0 (colv d "correct" r)) = .ok n) :
    ∃ d1, remove_missing_values d critical = .ok d1 := by
  have hunfold : remove_missing_values d critical =
      if critical.all (fun c => d.cols.contains c) then
        (if "correct" ∈ d.cols then
          setColE ⟨d.cols, d.rows.filter (fun r =>
            critical.all (fun c => !(cell r (colIdx d.cols c)).isMissing))⟩
            "correct" (fun r => do
              let n ← castIntStrict (fillna0 (cell r (colIdx d.cols "correct")))
              pure (.int n))
        else .ok ⟨d.cols, d.rows.filter (fun r =>
          critical.all (fun c => !(cell r (colIdx d.cols c)).isMissing))⟩)
      else .error "KeyError" := rfl
  rw [hunfold, if_pos (by
    rw [List.all_eq_true]
    intro c hcm
    simpa using hcrit c hcm)]
  by_cases hcorc : "correct" ∈ d.cols
  · rw [if_pos hcorc]
    apply setColE_ok_exists
    intro r hr
    obtain ⟨n, hn⟩ := hcor r (List.mem_of_mem_filter hr)
    exact ⟨.int n, bind_pure_ok hn Value.int⟩
  · rw [if_neg hcorc]
    exact ⟨_, rfl⟩

theorem fix_logic_total (d : DF) (hhc : "hint_count" ∈ d.cols)
    (hht : "hint_total" ∈ d.cols)
    (hok : ∀ r ∈ d.rows, ∃ g,
      pyGt (colv d "hint_count" r) (colv d "hint_total" r) = .ok g) :
    ∃ d2, fix_logic_errors d = .ok d2 := by
  have hunfold : fix_logic_errors d =
      if "hint_count" ∈ d.cols ∧ "hint_total" ∈ d.cols then
        (mapE (fun r => do
          let g ← pyGt (cell r (colIdx d.cols "hint_count"))
            (cell r (colIdx d.cols "hint_total"))
          pure (if g then
            r.set (colIdx d.cols "hint_count")
              (cell r (colIdx d.cols "hint_total"))
          else r)) d.rows).bind (fun rows1 =>
          if "correct" ∈ d.cols then
            pure ⟨d.cols, rows1.map (fun r =>
              if isin01 (cell r (colIdx d.cols "correct")) then r
              else r.set (colIdx d.cols "correct")
                (.int (if truthy (cell r (colIdx d.cols "correct"))
                  then 1 else 0)))⟩
          else pure ⟨d.cols, rows1⟩)
      else .error "KeyError" := rfl
  rw [hunfold, if_pos ⟨hhc, hht⟩]
  obtain ⟨rows1, hrows1⟩ := mapE_ok_exists (f := fun r => do
      let g ← pyGt (cell r (colIdx d.cols "hint_count"))
        (cell r (colIdx d.cols "hint_total"))
      pure (if g then
        r.set (colIdx d.cols "hint_count")
          (cell r (colIdx d.cols "hint_total"))
      else r)) (l := d.rows) (fun r hr => by
    obtain ⟨g, hg⟩ := hok r hr
    exact ⟨_, bind_pure_ok hg _⟩)
  rw [hrows1, ok_bind]
  by_cases hcorc : "correct" ∈ d.cols
  · rw [if_pos hcorc]
    exact ⟨_, rfl⟩
  · rw [if_neg hcorc]
    exact ⟨_, rfl⟩

theorem add_total (d : DF) (hhc : "hint_count" ∈ d.cols)
    (hht : "hint_total" ∈ d.cols)
    (hok : ∀ r ∈ d.rows, ∃ v,
      hintIndepVal (colv d "hint_count" r) (colv d "hint_total" r) = .ok v) :
    ∃ d4, add_hint_independence d = .ok d4 := by
  have hunfold : add_hint_independence d =
      if "hint_count" ∈ d.cols ∧ "hint_total" ∈ d.cols then
        setColE d "hint_independence" (fun r =>
          hintIndepVal (cell r (colIdx d.cols "hint_count"))
            (cell r (colIdx d.cols "hint_total")))
      else .error "KeyError" := rfl
  rw [hunfold, if_pos ⟨hhc, hht⟩]
  exact setColE_ok_exists (fun r hr => hok r hr)

theorem convert_total (d : DF) (hstr : ∀ c ∈ str_cols, c ∈ d.cols) :
    ∃ d5, convert_data_types d = .ok d5 := by
  rw [convert_data_types, if_pos (by
    rw [List.all_eq_true]
    intro c hc
    simpa using hstr c hc)]
  exact ⟨_, rfl⟩

theorem check_total (d : DF) (hu : "user_id" ∈ d.cols)
    (hp : "problem_id" ∈ d.cols) (hm : "ms_first_response" ∈ d.cols) :
    ∃ k d6, check_sequential_order d = .ok (k, d6) := by
  rw [check_sequential_order, if_pos ⟨hu, hp, hm⟩]
  exact ⟨_, _, rfl⟩

theorem selectCols_total (d : DF) (cs : List String)
    (hcs : ∀ c ∈ cs, c ∈ d.cols) : ∃ out, selectCols d cs = .ok out := by
  rw [selectCols, if_pos (by
    rw [List.all_eq_true]
    intro c hc
    simpa using hcs c hc)]
  exact ⟨_, rfl⟩

/-- **C8, counterexample.**  The claim says internal stages never raise,
but the completeness stage's `astype(int)` on `correct` raises `ValueError`
on a non-numeric string: the pipeline propagates the error to the caller
instead of repairing or dropping the row. -/
theorem C8_no_raise_counterexample :
    process_data ⟨inputCols,
        [mkInRow (.str "abc") (.int 1) (.int 10) (.int 0) (.int 1)]⟩
      = .error "ValueError: invalid literal for int" := by decide

/-- **C8, amended.**  The internal stages raise no error — the pipeline
returns a dataset normally — provided the thirteen expected input columns
are present and the `correct`, `hint_count` and `hint_total` cells contain
no string values; with string data in those columns a stage can raise
(`astype(int)` a `ValueError`, the comparison and the division a
`TypeError`). -/
theorem C8_no_raise_amended (df : DF) (hal : Aligned df)
    (hcols : ∀ c ∈ inputCols, c ∈ df.cols)
    (hnostr : ∀ r ∈ df.rows,
      isStrV (colv df "correct" r) = false ∧
      isStrV (colv df "hint_count" r) = false ∧
      isStrV (colv df "hint_total" r) = false) :
    ∃ out, process_data df = .ok out := by
  have hrows0 : ∀ r ∈ (remove_duplicates df).rows, r ∈ df.rows :=
    fun r hr => (dedupBy_sublist rowDupEq df.rows).subset hr
  have hal0 : Aligned (remove_duplicates df) := fun r hr => hal r (hrows0 r hr)
  have hcrit_sub : ∀ c ∈ critical_columns, c ∈ inputCols := by decide
  obtain ⟨d1, h1⟩ := remove_missing_total (remove_duplicates df)
    critical_columns (fun c hc => hcols c (hcrit_sub c hc))
    (fun r hr => castIntStrict_fillna0_total _
      (ne_str_of_isStrV (hnostr r (hrows0 r hr)).1))
  have spec1 := remove_missing_spec hal0 h1
  have hcols1 : d1.cols = df.cols := spec1.2.1
  have hal1 : Aligned d1 := spec1.2.2.1
  have hmem1 : ∀ c ∈ inputCols, c ∈ d1.cols := by
    intro c hc
    rw [hcols1]
    exact hcols c hc
  have hcorc : "correct" ∈ (remove_duplicates df).cols :=
    hcols "correct" (by decide)
  have hnostr1 : ∀ r ∈ d1.rows,
      (∀ s, colv d1 "hint_count" r ≠ .str s) ∧
      (∀ s, colv d1 "hint_total" r ≠ .str s) := by
    intro r hr
    obtain ⟨i, hi, rfl⟩ := mem_iff_getD.1 hr
    obtain ⟨r0, hr0, _, _, hcorfacts⟩ := spec1.2.2.2 i hi
    obtain ⟨_, hunch⟩ := hcorfacts hcorc
    have hhc1 := hunch "hint_count" (hcols "hint_count" (by decide)) (by decide)
    have hht1 := hunch "hint_total" (hcols "hint_total" (by decide)) (by decide)
    have h0 := hnostr r0 (hrows0 r0 hr0)
    constructor
    · intro s
      rw [hhc1]
      exact ne_str_of_isStrV h0.2.1 s
    · intro s
      rw [hht1]
      exact ne_str_of_isStrV h0.2.2 s
  obtain ⟨d2, h2⟩ := fix_logic_total d1 (hmem1 "hint_count" (by decide))
    (hmem1 "hint_total" (by decide))
    (fun r hr => pyGt_total _ _ (hnostr1 r hr).1 (hnostr1 r hr).2)
  have spec2 := fix_logic_spec hal1 h2
  have hcols2 : d2.cols = d1.cols := spec2.2.1
  have hal2 : Aligned d2 := spec2.2.2.1
  have hlen2 : d2.rows.length = d1.rows.length := spec2.2.2.2.1
  have hmem2 : ∀ c ∈ inputCols, c ∈ d2.cols := by
    intro c hc
    rw [hcols2]
    exact hmem1 c hc
  have hnostr2 : ∀ r ∈ d2.rows,
      (∀ s, colv d2 "hint_count" r ≠ .str s) ∧
      (∀ s, colv d2 "hint_total" r ≠ .str s) := by
    intro r hr
    obtain ⟨i, hi, rfl⟩ := mem_iff_getD.1 hr
    have hi1 : i < d1.rows.length := by
      rw [hlen2] at hi
      exact hi
    obtain ⟨⟨g, _, hgf, hgt⟩, hht, _, _⟩ := spec2.2.2.2.2 i hi1
    have h1facts := hnostr1 (d1.rows.getD i []) (getD_mem_row hi1)
    constructor
    · intro s
      cases g with
      | false =>
          rw [hgf rfl]
          exact h1facts.1 s
      | true =>
          rw [hgt rfl]
          exact h1facts.2 s
    · intro s
      rw [hht]
      exact h1facts.2 s
  have hms2 : "ms_first_response" ∈ d2.cols :=
    hmem2 "ms_first_response" (by decide)
  have spec3 := normalize_spec hal2 hms2 3600
  have hcols3 : (normalize_response_time d2 3600).cols = d2.cols := spec3.1
  have hlen3 : (normalize_response_time d2 3600).rows.length
      = d2.rows.length := spec3.2.2.1
  have hnostr3 : ∀ r ∈ (normalize_response_time d2 3600).rows,
      (∀ s, colv (normalize_response_time d2 3600) "hint_count" r ≠ .str s) ∧
      (∀ s, colv (normalize_response_time d2 3600) "hint_total" r ≠ .str s)
      := by
    intro r hr
    obtain ⟨i, hi, rfl⟩ := mem_iff_getD.1 hr
    have hi2 : i < d2.rows.length := by
      rw [hlen3] at hi
      exact hi
    obtain ⟨_, hunch⟩ := spec3.2.2.2 i hi2
    have h2facts := hnostr2 (d2.rows.getD i []) (getD_mem_row hi2)
    constructor
    · intro s
      rw [hunch "hint_count" (hmem2 "hint_count" (by decide)) (by decide)]
      exact h2facts.1 s
    · intro s
      rw [hunch "hint_total" (hmem2 "hint_total" (by decide)) (by decide)]
      exact h2facts.2 s
  obtain ⟨d4, h4⟩ := add_total (normalize_response_time d2 3600)
    (by
      rw [hcols3]
      exact hmem2 "hint_count" (by decide))
    (by
      rw [hcols3]
      exact hmem2 "hint_total" (by decide))
    (fun r hr => hintIndepVal_total _ _ (hnostr3 r hr).1 (hnostr3 r hr).2)
  have hal3 : Aligned (normalize_response_time d2 3600) := spec3.2.1
  have hcols4 := add_cols h4
  have hmem4 : ∀ c ∈ inputCols, c ∈ d4.cols := by
    intro c hc
    cases hcols4 with
    | inl he =>
        rw [he, hcols3]
        exact hmem2 c hc
    | inr he =>
        rw [he]
        exact List.mem_append_left _ (by
          rw [hcols3]
          exact hmem2 c hc)
  have hhi4 : "hint_independence" ∈ d4.cols := (add_spec hal3 h4).2.1
  have hstr_sub : ∀ c ∈ str_cols, c ∈ inputCols := by decide
  obtain ⟨d5, h5⟩ := convert_total d4 (fun c hc => hmem4 c (hstr_sub c hc))
  have hcols5 : d5.cols = d4.cols := convert_cols h5
  obtain ⟨k, d6, h6⟩ := check_total d5
    (by
      rw [hcols5]
      exact hmem4 "user_id" (by decide))
    (by
      rw [hcols5]
      exact hmem4 "problem_id" (by decide))
    (by
      rw [hcols5]
      exact hmem4 "ms_first_response" (by decide))
  have hcols6 : d6.cols = d5.cols := (check_spec h6).2.1
  have hkeep : ∀ c ∈ keep_cols, c ∈ d6.cols := by
    intro c hc
    rw [hcols6, hcols5]
    have hsplit : c = "hint_independence" ∨ c ∈ inputCols := by
      have : ∀ c ∈ keep_cols, c = "hint_independence" ∨ c ∈ inputCols := by
        decide
      exact this c hc
    cases hsplit with
    | inl he =>
        rw [he]
        exact hhi4
    | inr he => exact hmem4 c he
  obtain ⟨out, hsel⟩ := selectCols_total d6 keep_cols hkeep
  refine ⟨out, ?_⟩
  have hpd : process_data df =
      (remove_missing_values (remove_duplicates df) critical_columns).bind
        (fun d1 => (fix_logic_errors d1).bind (fun d2 =>
          (add_hint_independence (normalize_response_time d2 3600)).bind
            (fun d4 => (convert_data_types d4).bind (fun d5 =>
              (check_sequential_order d5).bind (fun kd6 =>
                selectCols kd6.2 keep_cols))))) := rfl
  rw [hpd, h1, ok_bind]
  rw [h2, ok_bind]
  rw [h4, ok_bind]
  rw [h5, ok_bind]
  rw [h6, ok_bind]
  exact hsel

/-- Witness for the amended C8: a concrete numeric dataset on which the
pipeline returns normally. -/
theorem C8_no_raise_amended_witness :
    ∃ out, process_data ⟨inputCols,
        [mkInRow (.int 1) (.int 2) (.int 20) (.int 1) (.int 2)]⟩
      = .ok out :=
  C8_no_raise_amended
    ⟨inputCols, [mkInRow (.int 1) (.int 2) (.int 20) (.int 1) (.int 2)]⟩
    (by decide) (by decide) (by decide)

/-! ### Claim C6: idempotence of the pipeline -/

theorem filter_eq_self_of {α : Type} {p : α → Bool} {l : List α}
    (h : ∀ a ∈ l, p a = true) : l.filter p = l := by
  induction l with
  | nil => rfl
  | cons a l ih =>
      rw [List.filter_cons, if_pos (h a (List.mem_cons_self ..)),
        ih (fun x hx => h x (List.mem_cons_of_mem a hx))]

theorem map_eq_self_of {α : Type} {l : List α} {f : α → α}
    (h : ∀ a ∈ l, f a = a) : l.map f = l := by
  induction l with
  | nil => rfl
  | cons a l ih =>
      rw [List.map_cons, h a (List.mem_cons_self ..),
        ih (fun x hx => h x (List.mem_cons_of_mem a hx))]

/-- In-place column assignment with the value already in the cell leaves
the dataframe unchanged. -/
theorem setColE_id {d : DF} {c : String} {f : Row → Except String Value}
    (hc : c ∈ d.cols)
    (hf : ∀ r ∈ d.rows, f r = .ok (cell r (colIdx d.cols c))) :
    setColE d c f = .ok d := by
  rw [setColE, if_pos hc]
  have hmap : mapE (fun r => do
      let v ← f r
      pure (r.set (colIdx d.cols c) v)) d.rows = .ok d.rows := by
    apply mapE_ok_id
    intro r hr
    show (do
      let v ← f r
      pure (r.set (colIdx d.cols c) v) : Except String Row) = .ok r
    rw [hf r hr]
    show Except.ok (r.set (colIdx d.cols c) (cell r (colIdx d.cols c)))
      = .ok r
    rw [set_cell_eq_self rfl]
  rw [hmap]
  rfl

/-- A fourteen-cell row is recovered by reading the fourteen `keep_cols`
positions back in order. -/
theorem row_eta14 (r : Row) (h : r.length = 14) :
    keep_cols.map (fun c => cell r (colIdx keep_cols c)) = r := by
  obtain _ | ⟨a0, r⟩ := r
  · simp at h
  obtain _ | ⟨a1, r⟩ := r
  · simp at h
  obtain _ | ⟨a2, r⟩ := r
  · simp at h
  obtain _ | ⟨a3, r⟩ := r
  · simp at h
  obtain _ | ⟨a4, r⟩ := r
  · simp at h
  obtain _ | ⟨a5, r⟩ := r
  · simp at h
  obtain _ | ⟨a6, r⟩ := r
  · simp at h
  obtain _ | ⟨a7, r⟩ := r
  · simp at h
  obtain _ | ⟨a8, r⟩ := r
  · simp at h
  obtain _ | ⟨a9, r⟩ := r
  · simp at h
  obtain _ | ⟨a10, r⟩ := r
  · simp at h
  obtain _ | ⟨a11, r⟩ := r
  · simp at h
  obtain _ | ⟨a12, r⟩ := r
  · simp at h
  obtain _ | ⟨a13, r⟩ := r
  · simp at h
  obtain _ | ⟨a14, r⟩ := r
  · rfl
  · simp only [List.length_cons] at h
    omega

/-- **C6, counterexample.**  The pipeline is not idempotent: deduplication
runs first, and the later boolean-domain repair of `correct` maps the two
distinct rows of `dupInput` to the same row, so the first run outputs two
identical rows and a second run on that output deletes one of them. -/
theorem C6_idempotence_counterexample :
    process_data dupInput = .ok dupOutput ∧
    process_data dupOutput = .ok ⟨keep_cols, [dupOutRow]⟩ ∧
    (DF.mk keep_cols [dupOutRow]) ≠ dupOutput :=
  ⟨by decide, by decide, by decide⟩

/-- **C6, amended.**  A successful output is a fixpoint of the pipeline —
a second run changes nothing — provided its rows are pairwise distinct
(deduplication can merge rows the first run's repairs made equal) and the
`hint_independence` cell of each row equals the value the feature formula
recomputes from the row's final `hint_count` and `hint_total` (the first
run computes it *before* the clamp-repair of `hint_count`, so a repaired
row can carry a stale value).  All other invariants hold automatically
after one run. -/
theorem C6_idempotence_amended (df out : DF) (hal : Aligned df)
    (h : process_data df = .ok out)
    (hnodup : out.rows.Pairwise (fun a b => rowDupEq a b = false))
    (hind : ∀ r ∈ out.rows,
      hintIndepVal (cell r 11) (cell r 12) = .ok (cell r 13)) :
    process_data out = .ok out := by
  obtain ⟨hcols, halout, _, hinv, hsort⟩ := pipeline_inv hal h
  obtain ⟨cols, rows⟩ := out
  have hceq : cols = keep_cols := hcols
  subst hceq
  have hlen : ∀ r ∈ rows, r.length = 14 := fun r hr => halout r hr
  have hdedup : remove_duplicates ⟨keep_cols, rows⟩
      = (⟨keep_cols, rows⟩ : DF) := by
    show (⟨keep_cols, dedupBy rowDupEq rows⟩ : DF) = ⟨keep_cols, rows⟩
    rw [dedupBy_eq_self rowDupEq rows hnodup]
  have h1 : remove_missing_values ⟨keep_cols, rows⟩ critical_columns
      = .ok ⟨keep_cols, rows⟩ := by
    have hunfold : remove_missing_values (⟨keep_cols, rows⟩ : DF)
        critical_columns =
        if critical_columns.all (fun c => keep_cols.contains c) then
          (if "correct" ∈ keep_cols then
            setColE ⟨keep_cols, rows.filter (fun r =>
              critical_columns.all
                (fun c => !(cell r (colIdx keep_cols c)).isMissing))⟩
              "correct" (fun r => do
                let n ← castIntStrict
                  (fillna0 (cell r (colIdx keep_cols "correct")))
                pure (.int n))
          else .ok ⟨keep_cols, rows.filter (fun r =>
            critical_columns.all
              (fun c => !(cell r (colIdx keep_cols c)).isMissing))⟩)
        else .error "KeyError" := rfl
    rw [hunfold, if_pos (by decide), if_pos (by decide)]
    have hfilter : rows.filter (fun r =>
        critical_columns.all
          (fun c => !(cell r (colIdx keep_cols c)).isMissing)) = rows := by
      apply filter_eq_self_of
      intro r hr
      obtain ⟨hids, _, _, _, ⟨hcnt, htot, h11, h12, _⟩, _⟩ := hinv r hr
      have hnm : ∀ j, j < 8 → (cell r j).isMissing = false := by
        intro j hj
        obtain ⟨s, hs⟩ := hids j hj
        rw [hs]
        rfl
      show critical_columns.all
        (fun c => !(cell r (colIdx keep_cols c)).isMissing) = true
      rw [List.all_eq_true]
      intro c hcmem
      fin_cases hcmem
      · show (!(cell r 0).isMissing) = true
        rw [hnm 0 (by decide)]
        rfl
      · show (!(cell r 1).isMissing) = true
        rw [hnm 1 (by decide)]
        rfl
      · show (!(cell r 2).isMissing) = true
        rw [hnm 2 (by decide)]
        rfl
      · show (!(cell r 3).isMissing) = true
        rw [hnm 3 (by decide)]
        rfl
      · show (!(cell r 4).isMissing) = true
        rw [hnm 4 (by decide)]
        rfl
      · show (!(cell r 5).isMissing) = true
        rw [hnm 5 (by decide)]
        rfl
      · show (!(cell r 6).isMissing) = true
        rw [hnm 6 (by decide)]
        rfl
      · show (!(cell r 7).isMissing) = true
        rw [hnm 7 (by decide)]
        rfl
      · show (!(cell r 11).isMissing) = true
        rw [h11]
        rfl
      · show (!(cell r 12).isMissing) = true
        rw [h12]
        rfl
    rw [hfilter]
    apply setColE_id (show "correct" ∈ keep_cols from by decide)
    intro r hr
    obtain ⟨_, hcor, _, _, _, _⟩ := hinv r hr
    show (do
      let n ← castIntStrict (fillna0 (cell r 8))
      pure (Value.int n) : Except String Value) = .ok (cell r 8)
    cases hcor with
    | inl h0 => rw [h0]; rfl
    | inr h1 => rw [h1]; rfl
  have h2 : fix_logic_errors ⟨keep_cols, rows⟩
      = .ok ⟨keep_cols, rows⟩ := by
    have hunfold : fix_logic_errors (⟨keep_cols, rows⟩ : DF) =
        if "hint_count" ∈ keep_cols ∧ "hint_total" ∈ keep_cols then
          (mapE (fun r => do
            let g ← pyGt (cell r (colIdx keep_cols "hint_count"))
              (cell r (colIdx keep_cols "hint_total"))
            pure (if g then
              r.set (colIdx keep_cols "hint_count")
                (cell r (colIdx keep_cols "hint_total"))
            else r)) rows).bind (fun rows1 =>
            if "correct" ∈ keep_cols then
              pure ⟨keep_cols, rows1.map (fun r =>
                if isin01 (cell r (colIdx keep_cols "correct")) then r
                else r.set (colIdx keep_cols "correct")
                  (.int (if truthy (cell r (colIdx keep_cols "correct"))
                    then 1 else 0)))⟩
            else pure ⟨keep_cols, rows1⟩)
        else .error "KeyError" := rfl
    rw [hunfold, if_pos (by decide)]
    have hmap : mapE (fun r => do
        let g ← pyGt (cell r (colIdx keep_cols "hint_count"))
          (cell r (colIdx keep_cols "hint_total"))
        pure (if g then
          r.set (colIdx keep_cols "hint_count")
            (cell r (colIdx keep_cols "hint_total"))
        else r)) rows = .ok rows := by
      apply mapE_ok_id
      intro r hr
      obtain ⟨_, _, _, _, ⟨hcnt, htot, h11, h12, hle⟩, _⟩ := hinv r hr
      show (do
        let g ← pyGt (cell r 11) (cell r 12)
        pure (if g then r.set 11 (cell r 12) else r)
          : Except String Row) = .ok r
      have hgt : pyGt (cell r 11) (cell r 12) = .ok false := by
        rw [h11, h12]
        show Except.ok (decide (htot < hcnt)) = .ok false
        rw [decide_eq_false_iff_not.2 (not_lt.2 hle)]
      rw [hgt]
      rfl
    rw [hmap, ok_bind, if_pos (by decide)]
    have hmap2 : rows.map (fun r =>
        if isin01 (cell r (colIdx keep_cols "correct")) then r
        else r.set (colIdx keep_cols "correct")
          (.int (if truthy (cell r (colIdx keep_cols "correct"))
            then 1 else 0))) = rows := by
      apply map_eq_self_of
      intro r hr
      obtain ⟨_, hcor, _, _, _, _⟩ := hinv r hr
      have hisin : isin01 (cell r 8) = true := by
        cases hcor with
        | inl h0 => rw [h0]; rfl
        | inr h1 => rw [h1]; rfl
      show (if isin01 (cell r 8) then r
        else r.set 8 (.int (if truthy (cell r 8) then 1 else 0))) = r
      rw [if_pos hisin]
    rw [hmap2]
    rfl
  have h3 : normalize_response_time ⟨keep_cols, rows⟩ 3600
      = (⟨keep_cols, rows⟩ : DF) := by
    have hunfold : normalize_response_time (⟨keep_cols, rows⟩ : DF) 3600 =
        if "ms_first_response" ∈ keep_cols then
          (⟨keep_cols, rows.map (fun r =>
            r.set (colIdx keep_cols "ms_first_response")
              (clampHi (fillna0 (toNumericCoerce
                (cell r (colIdx keep_cols "ms_first_response")))) 3600))⟩
            : DF)
        else ⟨keep_cols, rows⟩ := rfl
    rw [hunfold, if_pos (by decide)]
    have hmap : rows.map (fun r =>
        r.set (colIdx keep_cols "ms_first_response")
          (clampHi (fillna0 (toNumericCoerce
            (cell r (colIdx keep_cols "ms_first_response")))) 3600))
        = rows := by
      apply map_eq_self_of
      intro r hr
      obtain ⟨_, _, _, ⟨m, h10, hm⟩, _, _⟩ := hinv r hr
      show r.set 10 (clampHi (fillna0 (toNumericCoerce (cell r 10))) 3600) = r
      rw [h10]
      have hcl : clampHi (fillna0 (toNumericCoerce (Value.int m))) 3600
          = .int m := by
        show (if (3600 : Int) < m then Value.int 3600 else .int m) = .int m
        rw [if_neg (not_lt.2 hm)]
      rw [hcl]
      exact set_cell_eq_self h10
    rw [hmap]
  have h4 : add_hint_independence ⟨keep_cols, rows⟩
      = .ok ⟨keep_cols, rows⟩ := by
    have hunfold : add_hint_independence (⟨keep_cols, rows⟩ : DF) =
        if "hint_count" ∈ keep_cols ∧ "hint_total" ∈ keep_cols then
          setColE ⟨keep_cols, rows⟩ "hint_independence" (fun r =>
            hintIndepVal (cell r (colIdx keep_cols "hint_count"))
              (cell r (colIdx keep_cols "hint_total")))
        else .error "KeyError" := rfl
    rw [hunfold, if_pos (by decide)]
    apply setColE_id (show "hint_independence" ∈ keep_cols from by decide)
    intro r hr
    exact hind r hr
  have h5 : convert_data_types ⟨keep_cols, rows⟩
      = .ok ⟨keep_cols, rows⟩ := by
    have hunfold : convert_data_types (⟨keep_cols, rows⟩ : DF) =
        if str_cols.all (fun c => keep_cols.contains c) then
          .ok ⟨keep_cols,
            rows.map (fun r => intCast keep_cols (strCast keep_cols r))⟩
        else .error "KeyError" := rfl
    rw [hunfold, if_pos (by decide)]
    have hmap : rows.map (fun r => intCast keep_cols (strCast keep_cols r))
        = rows := by
      apply map_eq_self_of
      intro r hr
      obtain ⟨hids, hcor, ⟨a9, h9⟩, ⟨m, h10, _⟩, ⟨hcnt, htot, h11, h12, _⟩, _⟩
        := hinv r hr
      have hStrFix : ∀ j, (∃ s, cell r j = .str s) →
          Value.str (pyStr (cell r j)) = cell r j := by
        rintro j ⟨s, hs⟩
        rw [hs]
        rfl
      have hIntFix : ∀ j (n : Int), cell r j = .int n →
          Value.int (toIntCoerce (cell r j)) = cell r j := by
        intro j n hj
        rw [hj]
        rfl
      have hstrfix : strCast keep_cols r = r := by
        rw [strCast_eq_foldSet]
        apply foldSet_fix
        intro c hcmem hlt
        fin_cases hcmem
        · exact hStrFix 0 (hids 0 (by decide))
        · exact hStrFix 1 (hids 1 (by decide))
        · exact hStrFix 2 (hids 2 (by decide))
        · exact hStrFix 3 (hids 3 (by decide))
        · exact hStrFix 4 (hids 4 (by decide))
        · exact hStrFix 5 (hids 5 (by decide))
        · exact hStrFix 6 (hids 6 (by decide))
        · exact hStrFix 7 (hids 7 (by decide))
      show intCast keep_cols (strCast keep_cols r) = r
      rw [hstrfix, intCast_eq_foldSet,
        show int_cols.filter (fun c => keep_cols.contains c) = int_cols
          from rfl]
      apply foldSet_fix
      intro c hcmem hlt
      fin_cases hcmem
      · exact hIntFix 9 a9 h9
      · exact hIntFix 10 m h10
      · exact hIntFix 11 hcnt h11
      · exact hIntFix 12 htot h12
      · cases hcor with
        | inl h0 => exact hIntFix 8 0 h0
        | inr h1 => exact hIntFix 8 1 h1
    rw [hmap]
  have h6 : check_sequential_order ⟨keep_cols, rows⟩
      = .ok (sequential_issues keep_cols rows, ⟨keep_cols, rows⟩) := by
    have hunfold : check_sequential_order (⟨keep_cols, rows⟩ : DF) =
        if "user_id" ∈ keep_cols ∧ "problem_id" ∈ keep_cols ∧
            "ms_first_response" ∈ keep_cols then
          .ok (sequential_issues keep_cols (List.insertionSort
              (rowLe (colIdx keep_cols "user_id")
                (colIdx keep_cols "problem_id")
                (colIdx keep_cols "ms_first_response")) rows),
            ⟨keep_cols, List.insertionSort
              (rowLe (colIdx keep_cols "user_id")
                (colIdx keep_cols "problem_id")
                (colIdx keep_cols "ms_first_response")) rows⟩)
        else .error "KeyError" := rfl
    rw [hunfold, if_pos (by decide)]
    have hsorted : List.insertionSort
        (rowLe (colIdx keep_cols "user_id") (colIdx keep_cols "problem_id")
          (colIdx keep_cols "ms_first_response")) rows = rows :=
      List.Sorted.insertionSort_eq hsort
    rw [hsorted]
  have h7 : selectCols ⟨keep_cols, rows⟩ keep_cols
      = .ok ⟨keep_cols, rows⟩ := by
    have hunfold : selectCols (⟨keep_cols, rows⟩ : DF) keep_cols =
        if keep_cols.all (fun c => keep_cols.contains c) then
          .ok ⟨keep_cols, rows.map (fun r =>
            keep_cols.map (fun c => cell r (colIdx keep_cols c)))⟩
        else .error "KeyError" := rfl
    rw [hunfold, if_pos (by decide)]
    have hmap : rows.map (fun r =>
        keep_cols.map (fun c => cell r (colIdx keep_cols c))) = rows := by
      apply map_eq_self_of
      intro r hr
      exact row_eta14 r (hlen r hr)
    rw [hmap]
  have hpd : process_data (⟨keep_cols, rows⟩ : DF) =
      (remove_missing_values (remove_duplicates ⟨keep_cols, rows⟩)
          critical_columns).bind
        (fun d1 => (fix_logic_errors d1).bind (fun d2 =>
          (add_hint_independence (normalize_response_time d2 3600)).bind
            (fun d4 => (convert_data_types d4).bind (fun d5 =>
              (check_sequential_order d5).bind (fun kd6 =>
                selectCols kd6.2 keep_cols))))) := rfl
  rw [hpd, hdedup, h1, ok_bind, h2, ok_bind, h3, h4, ok_bind, h5, ok_bind,
    h6, ok_bind]
  exact h7

/-- Witness for the amended C6: a one-row run whose output satisfies both
side conditions, so a second run reproduces it exactly. -/
theorem C6_idempotence_amended_witness :
    process_data
        ⟨keep_cols, [mkOutRow (.int 0) (.int 3) (.int 7) (.int 2) (.int 4)
          ⟨2, 4⟩]⟩
      = .ok ⟨keep_cols, [mkOutRow (.int 0) (.int 3) (.int 7) (.int 2)
          (.int 4) ⟨2, 4⟩]⟩ :=
  C6_idempotence_amended
    ⟨inputCols, [mkInRow (.int 0) (.int 3) (.int 7) (.int 2) (.int 4)]⟩
    ⟨keep_cols, [mkOutRow (.int 0) (.int 3) (.int 7) (.int 2) (.int 4)
      ⟨2, 4⟩]⟩
    (by decide) (by decide) (by decide) (by decide)

end Kds
